import Mathlib

/-!
Verification of the mega-sena wager allocation and number-selection engine.

The definitions below are a shallow embedding of the repository's JavaScript
sources:
  * the pattern analyzer and smart selector from the later (stricter) version
    of the number-selection utilities (src/unnamed/part_000, second document);
  * the dynamic-programming allocation solver `calculateOptimalBets` and
    `calculateBetLevel` (src/backend/src/services/closure.js, betLevel part);
  * the wager-generation control flow and the persistence sequence of
    `closeBolao` (src/backend/src/services/closure.js).

JavaScript numbers are embedded as `ℕ`/`ℤ` for integer quantities and `ℚ` for
ratios.  `Math.round(x*100)/100` (rounding to two decimal places, half towards
`+∞` on the non-negative values that occur here) is embedded as `rnd2`.
`Math.random()` is embedded as an injected stream `g : ℕ → ℕ` with a call
counter: the JavaScript expression `Math.floor(Math.random() * len)` becomes
`g t % len` for the `t`-th call, which ranges over exactly the indices
`0 … len-1` the JavaScript expression can produce.
-/

namespace MegaSena

unseal Rat.mul Rat.add Rat.sub Rat.inv Rat.ofScientific

/-- Rounding to two decimal places: `Math.round(q * 100) / 100`. -/
def rnd2 (q : ℚ) : ℚ := (round (q * 100) : ℚ) / 100

/-! ### Pattern analyzer (src/unnamed/part_000, lines 362-650) -/

/-- `numbers.sort((a, b) => a - b)`: ascending sort (stable, as in modern JS). -/
def sortAscN (l : List ℕ) : List ℕ := List.insertionSort (· ≤ ·) l

/-- Decomposition of a sorted list into maximal runs of consecutive integers,
as `(start, length)` pairs in traversal order.  This is the run structure the
`hasConsecutiveIssue` loop computes with `currentSequence`/`sequenceStart`. -/
def runsAux (start prev cur : ℕ) : List ℕ → List (ℕ × ℕ)
  | [] => [(start, cur)]
  | x :: xs =>
    if x = prev + 1 then runsAux start x (cur + 1) xs
    else (start, cur) :: runsAux x x 1 xs

/-- Runs of the (already sorted) list. -/
def runs : List ℕ → List (ℕ × ℕ)
  | [] => []
  | x :: xs => runsAux x x 1 xs

/-- Result record of `hasConsecutiveIssue` (later version, with pair
tracking). `sequences` are runs of length ≥ 3, `pairs` the runs of length
exactly 2; `maxSequence` starts at 1 as in the source. -/
structure ConsecInfo where
  hasIssue : Bool
  maxSequence : ℕ
  sequences : List (ℕ × ℕ)
  pairs : List (ℕ × ℕ)
  pairCount : ℕ
  deriving Repr, DecidableEq

/-- `hasConsecutiveIssue(numbers)` (part_000 lines 374-430): sorts the input,
finds maximal consecutive runs, and flags an issue for a run of length ≥ 3 or
for more than one run of length exactly 2. -/
def hasConsecutiveIssue (numbers : List ℕ) : ConsecInfo :=
  let rs := runs (sortAscN numbers)
  let maxSeq := rs.foldl (fun m r => max m r.2) 1
  let pairs := rs.filter (fun r => r.2 = 2)
  { hasIssue := decide (3 ≤ maxSeq) || decide (1 < pairs.length)
    maxSequence := maxSeq
    sequences := rs.filter (fun r => 3 ≤ r.2)
    pairs := pairs
    pairCount := pairs.length }

/-- Result record of `getParityBalance`.  The returned `ratio` field is
rounded to two decimals (the source's `Math.round(ratio * 100) / 100`) while
`isBalanced` is computed from the unrounded ratio. -/
structure ParityInfo where
  evenCount : ℕ
  oddCount : ℕ
  ratio : ℚ
  isBalanced : Bool
  deriving Repr, DecidableEq

/-- `getParityBalance(numbers)` (part_000 lines 437-451). -/
def getParityBalance (numbers : List ℕ) : ParityInfo :=
  let evenCount := (numbers.filter (fun n => n % 2 = 0)).length
  let ratio : ℚ := (evenCount : ℚ) / (numbers.length : ℚ)
  { evenCount := evenCount
    oddCount := numbers.length - evenCount
    ratio := rnd2 ratio
    isBalanced := decide ((3 : ℚ)/10 ≤ ratio ∧ ratio ≤ 7/10) }

/-- Result record of `getDecadeDistribution` (later version).  `r1`, `r2`,
`r3` are the counts in the ranges 1-20, 21-40, 41-60; `maxConcentration` is
rounded to two decimals as in the returned object, while `isWellDistributed`
is computed from the unrounded concentration. -/
structure DecadeInfo where
  r1 : ℕ
  r2 : ℕ
  r3 : ℕ
  diversity : ℕ
  isWellDistributed : Bool
  minCoverage : ℕ
  maxConcentration : ℚ
  deriving Repr, DecidableEq

/-- Minimum of the nonempty range counts (`Math.min(...values.filter(v > 0))`);
`0` stands in for JavaScript's `Infinity` on an empty list (that case is never
consulted by `isWellDistributed`, which reads `minCoverage` only for sizes ≥ 7
where some range is inhabited). -/
def minPosCount (counts : List ℕ) : ℕ :=
  match counts.filter (fun c => 0 < c) with
  | [] => 0
  | c :: cs => cs.foldl min c

/-- `getDecadeDistribution(numbers)` (part_000 lines 458-492): range counts,
diversity, and the size-dependent well-distribution rule. -/
def getDecadeDistribution (numbers : List ℕ) : DecadeInfo :=
  let c1 := (numbers.filter (fun n => 1 ≤ n ∧ n ≤ 20)).length
  let c2 := (numbers.filter (fun n => 21 ≤ n ∧ n ≤ 40)).length
  let c3 := (numbers.filter (fun n => 41 ≤ n ∧ n ≤ 60)).length
  let usedRanges := ([c1, c2, c3].filter (fun c => 0 < c)).length
  let maxConc : ℚ := (max c1 (max c2 c3) : ℚ) / (numbers.length : ℚ)
  let minInRange := minPosCount [c1, c2, c3]
  let betSize := numbers.length
  let wellDist : Bool :=
    if 8 ≤ betSize then
      decide (usedRanges = 3 ∧ 2 ≤ minInRange ∧ maxConc ≤ 3/5)
    else if betSize = 7 then
      decide (2 ≤ usedRanges ∧ 2 ≤ minInRange ∧ maxConc ≤ 13/20)
    else
      decide (2 ≤ usedRanges ∧ maxConc ≤ 7/10)
  { r1 := c1, r2 := c2, r3 := c3
    diversity := usedRanges
    isWellDistributed := wellDist
    minCoverage := minInRange
    maxConcentration := rnd2 maxConc }

/-- Result record of `getMultiplesAnalysis`; `ratio5` is rounded to two
decimals, `hasIssue` uses the unrounded ratio. -/
structure MultiplesInfo where
  multiplesOf5 : ℕ
  multiplesOf10 : ℕ
  ratio5 : ℚ
  hasIssue : Bool
  deriving Repr, DecidableEq

/-- `getMultiplesAnalysis(numbers)` (part_000 lines 499-512). -/
def getMultiplesAnalysis (numbers : List ℕ) : MultiplesInfo :=
  let m5 := (numbers.filter (fun n => n % 5 = 0)).length
  let m10 := (numbers.filter (fun n => n % 10 = 0)).length
  let ratio5 : ℚ := (m5 : ℚ) / (numbers.length : ℚ)
  { multiplesOf5 := m5
    multiplesOf10 := m10
    ratio5 := rnd2 ratio5
    hasIssue := decide (2/5 < ratio5) || decide (2 < m10) }

/-- Issue severities. -/
inductive Severity
  | low
  | medium
  | high
  deriving Repr, DecidableEq

/-- One entry of the `issues` array of `validateSelection`.  The JavaScript
`message` strings are plain interpolations of the attached data and are not
modelled separately. -/
inductive Issue
  | consecutive (severity : Severity) (sequences pairs : List (ℕ × ℕ))
  | parity (severity : Severity) (info : ParityInfo)
  | distribution (severity : Severity) (r1 r2 r3 : ℕ)
  | multiples (severity : Severity) (info : MultiplesInfo)
  deriving Repr, DecidableEq

/-- The quality report returned by `validateSelection`. -/
structure QualityReport where
  isValid : Bool
  issues : List Issue
  quality : ℤ
  deriving Repr, DecidableEq

/-- Penalty for the longest consecutive run (`score -= 40/25/15`). -/
def runPenalty (c : ConsecInfo) : ℤ :=
  if 5 ≤ c.maxSequence then 40
  else if c.maxSequence = 4 then 25
  else if c.maxSequence = 3 then 15
  else 0

/-- Penalty for repeated 2-runs (`score -= (pairCount - 1) * 15`). -/
def pairPenalty (c : ConsecInfo) : ℤ :=
  if 1 < c.pairCount then (c.pairCount - 1 : ℕ) * 15 else 0

/-- Parity penalty; the inner comparison reads the *rounded* `ratio` field. -/
def parityPenalty (p : ParityInfo) : ℤ :=
  if p.isBalanced then 0
  else if p.ratio < 1/5 ∨ 4/5 < p.ratio then 20 else 10

/-- Decade penalty; the comparisons read the *rounded* `maxConcentration`. -/
def decadePenalty (d : DecadeInfo) : ℤ :=
  if d.diversity = 1 then 40
  else if d.diversity = 2 then
    if 7/10 < d.maxConcentration then 20
    else if 3/5 < d.maxConcentration then 10
    else 5
  else 0

/-- Multiples-of-10 penalty. -/
def tensPenalty (m : MultiplesInfo) : ℤ := if 2 < m.multiplesOf10 then 15 else 0

/-- Multiples-of-5 penalty; the comparison reads the *rounded* `ratio5`. -/
def fivesPenalty (m : MultiplesInfo) : ℤ := if 1/2 < m.ratio5 then 10 else 0

/-- `scoreSelectionQuality(numbers)` (part_000 lines 596-650): quality score
0-100.  Note that the parity branch, the two-range decade branch and the
multiples-of-5 branch compare the *rounded* ratios (`parity.ratio`,
`distribution.maxConcentration`, `multiples.ratio5` are the rounded record
fields returned by the analysis helpers). -/
def scoreSelectionQuality (numbers : List ℕ) : ℤ :=
  let c := hasConsecutiveIssue numbers
  let p := getParityBalance numbers
  let d := getDecadeDistribution numbers
  let m := getMultiplesAnalysis numbers
  max 0 (min 100
    (100 - runPenalty c - pairPenalty c - parityPenalty p - decadePenalty d -
      tensPenalty m - fivesPenalty m))

/-- `validateSelection(numbers)` (part_000 lines 519-589). -/
def validateSelection (numbers : List ℕ) : QualityReport :=
  let c := hasConsecutiveIssue numbers
  let consecIssues : List Issue :=
    if c.hasIssue then
      let sev := if 4 ≤ c.maxSequence then Severity.high else Severity.medium
      [Issue.consecutive sev c.sequences c.pairs]
    else []
  let p := getParityBalance numbers
  let parityIssues : List Issue :=
    if p.isBalanced then []
    else
      let sev := if p.ratio < 1/5 ∨ 4/5 < p.ratio then Severity.medium else Severity.low
      [Issue.parity sev p]
  let d := getDecadeDistribution numbers
  let distIssues : List Issue :=
    if d.isWellDistributed then []
    else
      let sev := if d.diversity = 1 then Severity.high else Severity.low
      [Issue.distribution sev d.r1 d.r2 d.r3]
  let m := getMultiplesAnalysis numbers
  let multIssues : List Issue :=
    if m.hasIssue then
      [Issue.multiples (if 2 < m.multiplesOf10 then Severity.medium else Severity.low) m]
    else []
  let quality := scoreSelectionQuality numbers
  { isValid := decide (60 ≤ quality)
    issues := consecIssues ++ parityIssues ++ distIssues ++ multIssues
    quality := quality }

/-! ### Set-level measures used to state the specification's quality formula -/

/-- Length of the longest run of consecutive integers in the set. -/
def longestRun (l : List ℕ) : ℕ :=
  (runs (sortAscN l)).foldl (fun m r => max m r.2) 1

/-- Number of maximal runs of length exactly 2 ("2-run pairs"). -/
def twoRunCount (l : List ℕ) : ℕ :=
  ((runs (sortAscN l)).filter (fun r => r.2 = 2)).length

/-- Exact ratio of even numbers. -/
def evenRatio (l : List ℕ) : ℚ :=
  ((l.filter (fun n => n % 2 = 0)).length : ℚ) / (l.length : ℚ)

/-- Number of the three ranges 1-20, 21-40, 41-60 that are inhabited. -/
def usedRangeCount (l : List ℕ) : ℕ :=
  ([(l.filter (fun n => 1 ≤ n ∧ n ≤ 20)).length,
     (l.filter (fun n => 21 ≤ n ∧ n ≤ 40)).length,
     (l.filter (fun n => 41 ≤ n ∧ n ≤ 60)).length].filter (fun c => 0 < c)).length

/-- Exact maximal range concentration. -/
def rangeConcentration (l : List ℕ) : ℚ :=
  (max (l.filter (fun n => 1 ≤ n ∧ n ≤ 20)).length
    (max (l.filter (fun n => 21 ≤ n ∧ n ≤ 40)).length
      (l.filter (fun n => 41 ≤ n ∧ n ≤ 60)).length) : ℚ) / (l.length : ℚ)

/-- Number of multiples of 10. -/
def tensCount (l : List ℕ) : ℕ := (l.filter (fun n => n % 10 = 0)).length

/-- Exact ratio of multiples of 5. -/
def fivesRatio (l : List ℕ) : ℚ :=
  ((l.filter (fun n => n % 5 = 0)).length : ℚ) / (l.length : ℚ)

/-- Quality formula stated by claim C5, from the spec's words: 100 minus the
fixed penalties, all ratio thresholds compared against the *exact* ratios,
clamped to [0,100]. -/
def specQualityScoreC5 (l : List ℕ) : ℤ :=
  let runPen : ℤ :=
    if 5 ≤ longestRun l then 40
    else if longestRun l = 4 then 25
    else if longestRun l = 3 then 15
    else 0
  let pairPen : ℤ := ((twoRunCount l - 1 : ℕ) : ℤ) * 15
  let e := evenRatio l
  let parPen : ℤ :=
    if e < 1/5 ∨ 4/5 < e then 20
    else if ¬ ((3 : ℚ)/10 ≤ e ∧ e ≤ 7/10) then 10
    else 0
  let u := usedRangeCount l
  let conc := rangeConcentration l
  let decPen : ℤ :=
    if u = 1 then 40
    else if u = 2 then (if 7/10 < conc then 20 else if 3/5 < conc then 10 else 5)
    else 0
  let mPen : ℤ :=
    (if 2 < tensCount l then 15 else 0) + (if 1/2 < fivesRatio l then 10 else 0)
  max 0 (min 100 (100 - runPen - pairPen - parPen - decPen - mPen))

/-- The amended quality formula: as `specQualityScoreC5`, except that the
two-range decade penalty compares the concentration *rounded to two decimal
places* (the source stores `Math.round(maxConcentration * 100) / 100` in the
distribution record and the score reads that field). -/
def specQualityScoreC5Rounded (l : List ℕ) : ℤ :=
  let runPen : ℤ :=
    if 5 ≤ longestRun l then 40
    else if longestRun l = 4 then 25
    else if longestRun l = 3 then 15
    else 0
  let pairPen : ℤ := ((twoRunCount l - 1 : ℕ) : ℤ) * 15
  let e := evenRatio l
  let parPen : ℤ :=
    if e < 1/5 ∨ 4/5 < e then 20
    else if ¬ ((3 : ℚ)/10 ≤ e ∧ e ≤ 7/10) then 10
    else 0
  let u := usedRangeCount l
  let conc := rnd2 (rangeConcentration l)
  let decPen : ℤ :=
    if u = 1 then 40
    else if u = 2 then (if 7/10 < conc then 20 else if 3/5 < conc then 10 else 5)
    else 0
  let mPen : ℤ :=
    (if 2 < tensCount l then 15 else 0) + (if 1/2 < fivesRatio l then 10 else 0)
  max 0 (min 100 (100 - runPen - pairPen - parPen - decPen - mPen))

/-! ### Rounding bridge lemmas -/

lemma rnd2_div_lt_iff (a b : ℕ) (hb : 0 < b) (c : ℤ) :
    rnd2 ((a : ℚ) / b) < (c : ℚ) / 100 ↔ (200 * a : ℤ) < b * (2 * c - 1) := by
  have hb' : (0 : ℚ) < b := by exact_mod_cast hb
  have h100 : (0 : ℚ) < 100 := by norm_num
  rw [rnd2, div_lt_div_iff h100 h100, mul_lt_mul_right h100, Int.cast_lt,
    round_eq, Int.floor_lt]
  rw [div_mul_eq_mul_div, ← lt_sub_iff_add_lt, div_lt_iff hb']
  rw [show ((c : ℚ) - 1/2) * b = b * (2 * c - 1) / 2 by ring,
    lt_div_iff (by norm_num : (0:ℚ) < 2)]
  rw [show ((a : ℚ) * 100) * 2 = ((200 * a : ℤ) : ℚ) by push_cast; ring,
    show ((b : ℚ)) * (2 * (c : ℚ) - 1) = ((b * (2 * c - 1) : ℤ) : ℚ) by push_cast; ring]
  exact Int.cast_lt

lemma lt_rnd2_div_iff (a b : ℕ) (hb : 0 < b) (c : ℤ) :
    (c : ℚ) / 100 < rnd2 ((a : ℚ) / b) ↔ (b * (2 * c + 1) : ℤ) ≤ 200 * a := by
  have hb' : (0 : ℚ) < b := by exact_mod_cast hb
  have h100 : (0 : ℚ) < 100 := by norm_num
  rw [rnd2, div_lt_div_iff h100 h100, mul_lt_mul_right h100, Int.cast_lt,
    round_eq, Int.lt_iff_add_one_le, Int.le_floor]
  rw [Int.cast_add, Int.cast_one, div_mul_eq_mul_div, ← sub_le_iff_le_add,
    le_div_iff hb']
  rw [show ((c : ℚ) + 1 - 1/2) * b = b * (2 * c + 1) / 2 by ring,
    div_le_iff (by norm_num : (0:ℚ) < 2)]
  rw [show ((a : ℚ) * 100) * 2 = ((200 * a : ℤ) : ℚ) by push_cast; ring,
    show ((b : ℚ)) * (2 * (c : ℚ) + 1) = ((b * (2 * c + 1) : ℤ) : ℚ) by push_cast; ring]
  exact Int.cast_le

/-! ### Cardinality bounds for sets of distinct numbers in 1..60 -/

lemma filter_count_bound (p : ℕ → Bool) {l : List ℕ} (hnd : l.Nodup)
    (hmem : ∀ x ∈ l, 1 ≤ x ∧ x ≤ 60) :
    (l.filter p).length ≤ ((List.range' 1 60).filter p).length := by
  refine (List.subperm_of_subset (hnd.filter p) ?_).length_le
  intro x hx
  have hx1 := List.mem_filter.mp hx
  refine List.mem_filter.mpr ⟨List.mem_range'_1.mpr ⟨(hmem x hx1.1).1, ?_⟩, hx1.2⟩
  exact Nat.lt_succ_of_le (hmem x hx1.1).2

lemma length_le_60 {l : List ℕ} (hnd : l.Nodup)
    (hmem : ∀ x ∈ l, 1 ≤ x ∧ x ≤ 60) : l.length ≤ 60 := by
  have h : l.length ≤ (List.range' 1 60).length :=
    (List.subperm_of_subset hnd (fun x hx =>
      List.mem_range'_1.mpr ⟨(hmem x hx).1, Nat.lt_succ_of_le (hmem x hx).2⟩)).length_le
  simpa using h

lemma evens_le_30 {l : List ℕ} (hnd : l.Nodup)
    (hmem : ∀ x ∈ l, 1 ≤ x ∧ x ≤ 60) :
    (l.filter (fun n => n % 2 = 0)).length ≤ 30 :=
  (filter_count_bound _ hnd hmem).trans (by decide)

lemma odds_le_30 {l : List ℕ} (hnd : l.Nodup)
    (hmem : ∀ x ∈ l, 1 ≤ x ∧ x ≤ 60) :
    l.length - (l.filter (fun n => n % 2 = 0)).length ≤ 30 := by
  have hsplit := l.length_eq_length_filter_add (fun n => decide (n % 2 = 0))
  have hodd : (l.filter (fun n => !(decide (n % 2 = 0)))).length ≤ 30 :=
    (filter_count_bound _ hnd hmem).trans (by decide)
  omega

lemma fives_le_12 {l : List ℕ} (hnd : l.Nodup)
    (hmem : ∀ x ∈ l, 1 ≤ x ∧ x ≤ 60) :
    (l.filter (fun n => n % 5 = 0)).length ≤ 12 :=
  (filter_count_bound _ hnd hmem).trans (by decide)

/-! ### Rounded vs exact thresholds: the disagreement zones are uninhabited -/

/-- For even-counts `e ≤ 30` with `k - e ≤ 30` odd numbers, the fraction
`e / k` never lies in the zone `[0.195, 0.2)` where rounding to two decimals
would change the `< 0.2` comparison. -/
lemma parityZoneNat1 : ∀ k < 61, ∀ e < 31, k ≤ e + 30 → e ≤ k →
    200*e < 40*k → 200*e < 39*k := by decide

/-- For even-counts `e ≤ 30` with `k - e ≤ 30` odd numbers, the fraction
`e / k` never lies in the zone `(0.8, 0.805)` where rounding to two decimals
would change the `> 0.8` comparison. -/
lemma parityZoneNat2 : ∀ k < 61, ∀ e < 31, k ≤ e + 30 → e ≤ k →
    160*k < 200*e → 161*k ≤ 200*e := by decide

/-- For multiple-of-5 counts `m ≤ 12` and `k ≤ 60`, the fraction `m / k`
never lies in the zone `(0.5, 0.505)` where rounding to two decimals would
change the `> 0.5` comparison. -/
lemma fivesZoneNat : ∀ k < 61, ∀ m < 13, m ≤ k →
    (100*k < 200*m → 101*k ≤ 200*m) := by decide

/-! ### The code's penalties against the claim's penalties -/

lemma cast_div_lt_cast_div_iff (a b p q : ℕ) (hb : 0 < b) (hq : 0 < q) :
    (a : ℚ) / b < (p : ℚ) / q ↔ a * q < p * b := by
  rw [div_lt_div_iff (by exact_mod_cast hb) (by exact_mod_cast hq)]
  rw [show ((a : ℚ) * q = ((a * q : ℕ) : ℚ)) by push_cast; ring,
    show ((p : ℚ) * b = ((p * b : ℕ) : ℚ)) by push_cast; ring]
  exact Nat.cast_lt

lemma parityPenalty_spec {l : List ℕ} (hne : l ≠ []) (hnd : l.Nodup)
    (hmem : ∀ x ∈ l, 1 ≤ x ∧ x ≤ 60) :
    parityPenalty (getParityBalance l) =
      (if evenRatio l < 1/5 ∨ 4/5 < evenRatio l then 20
       else if ¬ ((3 : ℚ)/10 ≤ evenRatio l ∧ evenRatio l ≤ 7/10) then 10
       else 0 : ℤ) := by
  set a := (l.filter (fun n => n % 2 = 0)).length with ha
  set k := l.length with hk
  have hk0 : 0 < k := List.length_pos.mpr hne
  have he30 : a ≤ 30 := evens_le_30 hnd hmem
  have ho30 : k - a ≤ 30 := odds_le_30 hnd hmem
  have hk60 : k ≤ 60 := length_le_60 hnd hmem
  have hek : a ≤ k := List.length_filter_le _ _
  have hev : evenRatio l = (a : ℚ) / (k : ℚ) := rfl
  have hbal : (getParityBalance l).isBalanced =
      decide ((3 : ℚ)/10 ≤ (a : ℚ) / (k : ℚ) ∧ (a : ℚ) / (k : ℚ) ≤ 7/10) := rfl
  have hrat : (getParityBalance l).ratio = rnd2 ((a : ℚ) / (k : ℚ)) := rfl
  have h20 : rnd2 ((a : ℚ)/(k : ℚ)) < 1/5 ↔ (200 * a : ℤ) < k * 39 := by
    have h := rnd2_div_lt_iff a k hk0 20
    norm_num at h
    exact h
  have h80 : 4/5 < rnd2 ((a : ℚ)/(k : ℚ)) ↔ (k * 161 : ℤ) ≤ 200 * a := by
    have h := lt_rnd2_div_iff a k hk0 80
    norm_num at h
    exact h
  have e20 : (a : ℚ)/(k : ℚ) < 1/5 ↔ a * 5 < 1 * k := by
    have h := cast_div_lt_cast_div_iff a k 1 5 hk0 (by norm_num)
    norm_num at h ⊢
    exact h
  have e80 : 4/5 < (a : ℚ)/(k : ℚ) ↔ 4 * k < a * 5 := by
    have h := cast_div_lt_cast_div_iff 4 5 a k (by norm_num) hk0
    norm_num at h ⊢
    exact h
  have hz1 := parityZoneNat1 k (by omega) a (by omega) (by omega) hek
  have hz2 := parityZoneNat2 k (by omega) a (by omega) (by omega) hek
  have hiff : (rnd2 ((a : ℚ)/(k : ℚ)) < 1/5 ∨ 4/5 < rnd2 ((a : ℚ)/(k : ℚ))) ↔
      ((a : ℚ)/(k : ℚ) < 1/5 ∨ 4/5 < (a : ℚ)/(k : ℚ)) := by
    rw [h20, h80, e20, e80]
    constructor
    · rintro (h | h)
      · left; omega
      · right; omega
    · rintro (h | h)
      · left
        have := hz1 (by omega)
        omega
      · right
        have := hz2 (by omega)
        omega
  rw [parityPenalty, hbal, hrat, hev]
  simp only [decide_eq_true_eq]
  by_cases hbal' : (3 : ℚ)/10 ≤ (a : ℚ)/(k : ℚ) ∧ (a : ℚ)/(k : ℚ) ≤ 7/10
  · have h1 : ¬ ((a : ℚ)/(k : ℚ) < 1/5 ∨ 4/5 < (a : ℚ)/(k : ℚ)) := by
      rintro (h | h)
      · linarith [hbal'.1]
      · linarith [hbal'.2]
    rw [if_pos hbal', if_neg h1, if_neg (not_not_intro hbal')]
  · rw [if_neg hbal']
    by_cases hex : (a : ℚ)/(k : ℚ) < 1/5 ∨ 4/5 < (a : ℚ)/(k : ℚ)
    · rw [if_pos (hiff.mpr hex), if_pos hex]
    · rw [if_neg (fun hc => hex (hiff.mp hc)), if_neg hex, if_pos hbal']

lemma fivesPenalty_spec {l : List ℕ} (hne : l ≠ []) (hnd : l.Nodup)
    (hmem : ∀ x ∈ l, 1 ≤ x ∧ x ≤ 60) :
    fivesPenalty (getMultiplesAnalysis l) =
      (if 1/2 < fivesRatio l then 10 else 0 : ℤ) := by
  set m := (l.filter (fun n => n % 5 = 0)).length with hm
  set k := l.length with hk
  have hk0 : 0 < k := List.length_pos.mpr hne
  have hm12 : m ≤ 12 := fives_le_12 hnd hmem
  have hk60 : k ≤ 60 := length_le_60 hnd hmem
  have hmk : m ≤ k := List.length_filter_le _ _
  have hfr : fivesRatio l = (m : ℚ) / (k : ℚ) := rfl
  have hrat : (getMultiplesAnalysis l).ratio5 = rnd2 ((m : ℚ) / (k : ℚ)) := rfl
  have h50 : 1/2 < rnd2 ((m : ℚ)/(k : ℚ)) ↔ (k * 101 : ℤ) ≤ 200 * m := by
    have h := lt_rnd2_div_iff m k hk0 50
    norm_num at h
    exact h
  have e50 : (1 : ℚ)/2 < (m : ℚ)/(k : ℚ) ↔ 1 * k < m * 2 := by
    have h := cast_div_lt_cast_div_iff 1 2 m k (by norm_num) hk0
    norm_num at h ⊢
    exact h
  have hzone := fivesZoneNat k (by omega) m (by omega) hmk
  have hiff : 1/2 < rnd2 ((m : ℚ)/(k : ℚ)) ↔ (1 : ℚ)/2 < (m : ℚ)/(k : ℚ) := by
    rw [h50, e50]
    constructor
    · intro h; omega
    · intro h
      have := hzone (by omega)
      omega
  rw [fivesPenalty, hrat, hfr]
  by_cases hex : (1 : ℚ)/2 < (m : ℚ)/(k : ℚ)
  · rw [if_pos (hiff.mpr hex), if_pos hex]
  · rw [if_neg (fun hc => hex (hiff.mp hc)), if_neg hex]

lemma pairPenalty_spec (l : List ℕ) :
    pairPenalty (hasConsecutiveIssue l) = ((twoRunCount l - 1 : ℕ) : ℤ) * 15 := by
  have hpc : (hasConsecutiveIssue l).pairCount = twoRunCount l := rfl
  rw [pairPenalty, hpc]
  by_cases h : 1 < twoRunCount l
  · rw [if_pos h]
  · rw [if_neg h]
    have h0 : twoRunCount l - 1 = 0 := by omega
    rw [h0]
    norm_num

/-- Claim C5 (amended): for every nonempty set of distinct integers in
[1,60], the quality score equals 100 minus the claimed penalties — with the
two-range decade penalty thresholds compared against the concentration
rounded to two decimal places (as the code stores it) rather than the exact
concentration — clamped to [0,100]; and `isValid` holds iff the score is
≥ 60.  The parity and multiples-of-5 thresholds may be read with the exact
ratios: for sets of distinct numbers in [1,60] the rounded and exact
comparisons provably agree there. -/
theorem claim_C5_amended (l : List ℕ) (hne : l ≠ []) (hnd : l.Nodup)
    (hmem : ∀ x ∈ l, 1 ≤ x ∧ x ≤ 60) :
    scoreSelectionQuality l = specQualityScoreC5Rounded l ∧
      ((validateSelection l).isValid = true ↔ 60 ≤ scoreSelectionQuality l) := by
  constructor
  · have hrun : runPenalty (hasConsecutiveIssue l) =
        (if 5 ≤ longestRun l then (40:ℤ)
         else if longestRun l = 4 then 25
         else if longestRun l = 3 then 15
         else 0) := rfl
    have hdec : decadePenalty (getDecadeDistribution l) =
        (if usedRangeCount l = 1 then (40:ℤ)
         else if usedRangeCount l = 2 then
           (if 7/10 < rnd2 (rangeConcentration l) then 20
            else if 3/5 < rnd2 (rangeConcentration l) then 10
            else 5)
         else 0) := rfl
    have htens : tensPenalty (getMultiplesAnalysis l) =
        (if 2 < tensCount l then (15:ℤ) else 0) := rfl
    simp only [scoreSelectionQuality, specQualityScoreC5Rounded]
    rw [hrun, hdec, htens, pairPenalty_spec l, parityPenalty_spec hne hnd hmem,
      fivesPenalty_spec hne hnd hmem]
    congr 1
    congr 1
    ring
  · show decide (60 ≤ scoreSelectionQuality l) = true ↔ 60 ≤ scoreSelectionQuality l
    exact decide_eq_true_iff

/-- Witness for `claim_C5_amended` at the concrete set [10,11,12,30,31,45]. -/
theorem claim_C5_witness :
    ([10,11,12,30,31,45] : List ℕ) ≠ [] ∧
    ([10,11,12,30,31,45] : List ℕ).Nodup ∧
    (∀ x ∈ ([10,11,12,30,31,45] : List ℕ), 1 ≤ x ∧ x ≤ 60) ∧
    (scoreSelectionQuality [10,11,12,30,31,45] =
        specQualityScoreC5Rounded [10,11,12,30,31,45] ∧
      ((validateSelection [10,11,12,30,31,45]).isValid = true ↔
        60 ≤ scoreSelectionQuality [10,11,12,30,31,45])) :=
  ⟨by decide, by decide, by decide,
    claim_C5_amended [10,11,12,30,31,45] (by decide) (by decide) (by decide)⟩

/-- The 27-element set used to refute claim C5 as stated: 19 numbers in the
range 1-20 and 8 in 21-40, so the exact two-range concentration is
19/27 ≈ 0.7037 (> 0.70, claimed penalty 20) but the code's rounded
concentration is 0.70 (penalty 10). -/
def c5Set : List ℕ :=
  [1,2,3,4,5,6,7,8,9,10,11,12,13,14,15,16,17,18,19,21,23,25,27,29,31,33,35]

/-- Counterexample to claim C5 as stated: on `c5Set` (a set of distinct
integers in [1,60]) the code's quality score is 50 while the claimed
penalty formula (with the exact concentration) yields 40. -/
theorem claim_C5_counterexample :
    c5Set.Nodup ∧ (∀ x ∈ c5Set, 1 ≤ x ∧ x ≤ 60) ∧
    scoreSelectionQuality c5Set = 50 ∧ specQualityScoreC5 c5Set = 40 := by
  refine ⟨by decide, by decide, by decide, by decide⟩

/-! ### Claim C7: the decade-spread rule -/

/-- The three range counts of a selection. -/
def decadeCountsList (l : List ℕ) : List ℕ :=
  [(l.filter (fun n => 1 ≤ n ∧ n ≤ 20)).length,
   (l.filter (fun n => 21 ≤ n ∧ n ≤ 40)).length,
   (l.filter (fun n => 41 ≤ n ∧ n ≤ 60)).length]

/-- The decade-spread rule as worded by claim C7: for k ≥ 8 all three ranges
used, every used range with ≥ 2 members, concentration ≤ 0.60; for k = 7 at
least 2 ranges, every used range ≥ 2 members, concentration ≤ 0.65; for
k = 6 at least 2 ranges and concentration ≤ 0.70. -/
def specWellDistributedC7 (l : List ℕ) : Prop :=
  if 8 ≤ l.length then
    usedRangeCount l = 3 ∧ (∀ c ∈ decadeCountsList l, 0 < c → 2 ≤ c) ∧
      rangeConcentration l ≤ 3/5
  else if l.length = 7 then
    2 ≤ usedRangeCount l ∧ (∀ c ∈ decadeCountsList l, 0 < c → 2 ≤ c) ∧
      rangeConcentration l ≤ 13/20
  else
    2 ≤ usedRangeCount l ∧ rangeConcentration l ≤ 7/10

lemma minPos_ge2_iff (a b c : ℕ) (h : 0 < a ∨ 0 < b ∨ 0 < c) :
    2 ≤ minPosCount [a, b, c] ↔
      ((0 < a → 2 ≤ a) ∧ (0 < b → 2 ≤ b) ∧ (0 < c → 2 ≤ c)) := by
  rcases Nat.eq_zero_or_pos a with ha | ha <;>
    rcases Nat.eq_zero_or_pos b with hb | hb <;>
      rcases Nat.eq_zero_or_pos c with hc | hc <;>
        simp_all [minPosCount, List.filter] <;> omega

/-- Claim C7: the decade rule of `getDecadeDistribution` matches the claimed
size-dependent conditions, and the distribution violation is reported with
severity high iff only one range is used (low otherwise), and only when the
rule is violated. -/
theorem claim_C7 (l : List ℕ) (hnd : l.Nodup)
    (hmem : ∀ x ∈ l, 1 ≤ x ∧ x ≤ 60) (hk : 6 ≤ l.length) :
    ((getDecadeDistribution l).isWellDistributed = true ↔ specWellDistributedC7 l) ∧
    ((getDecadeDistribution l).isWellDistributed = false →
      Issue.distribution
        (if (getDecadeDistribution l).diversity = 1 then Severity.high else Severity.low)
        (getDecadeDistribution l).r1 (getDecadeDistribution l).r2 (getDecadeDistribution l).r3
        ∈ (validateSelection l).issues) ∧
    (∀ sev a b c, Issue.distribution sev a b c ∈ (validateSelection l).issues →
      (getDecadeDistribution l).isWellDistributed = false ∧
        sev = (if (getDecadeDistribution l).diversity = 1 then Severity.high else Severity.low)) := by
  have hne : l ≠ [] := by
    intro h
    rw [h] at hk
    simp at hk
  obtain ⟨x, hx⟩ := List.exists_mem_of_ne_nil l hne
  have hxr := hmem x hx
  have hpos : 0 < (l.filter (fun n => 1 ≤ n ∧ n ≤ 20)).length ∨
      0 < (l.filter (fun n => 21 ≤ n ∧ n ≤ 40)).length ∨
      0 < (l.filter (fun n => 41 ≤ n ∧ n ≤ 60)).length := by
    rcases (by omega : x ≤ 20 ∨ (21 ≤ x ∧ x ≤ 40) ∨ 41 ≤ x) with h | h | h
    · exact Or.inl (List.length_pos.mpr (List.ne_nil_of_mem
        (List.mem_filter.mpr ⟨hx, by simp only [decide_eq_true_eq]; omega⟩)))
    · exact Or.inr (Or.inl (List.length_pos.mpr (List.ne_nil_of_mem
        (List.mem_filter.mpr ⟨hx, by simp only [decide_eq_true_eq]; omega⟩))))
    · exact Or.inr (Or.inr (List.length_pos.mpr (List.ne_nil_of_mem
        (List.mem_filter.mpr ⟨hx, by simp only [decide_eq_true_eq]; omega⟩))))
  have hwd : (getDecadeDistribution l).isWellDistributed =
      (if 8 ≤ l.length then
        decide (usedRangeCount l = 3 ∧ 2 ≤ minPosCount (decadeCountsList l) ∧
          rangeConcentration l ≤ 3/5)
       else if l.length = 7 then
        decide (2 ≤ usedRangeCount l ∧ 2 ≤ minPosCount (decadeCountsList l) ∧
          rangeConcentration l ≤ 13/20)
       else
        decide (2 ≤ usedRangeCount l ∧ rangeConcentration l ≤ 7/10)) := rfl
  have hmin : 2 ≤ minPosCount (decadeCountsList l) ↔
      (∀ c ∈ decadeCountsList l, 0 < c → 2 ≤ c) := by
    refine (minPos_ge2_iff _ _ _ hpos).trans ?_
    simp [decadeCountsList]
  have hdivr : (getDecadeDistribution l).diversity = usedRangeCount l := rfl
  refine ⟨?_, ?_, ?_⟩
  · rw [hwd, specWellDistributedC7]
    split_ifs with h8 h7 <;> simp only [decide_eq_true_eq]
    · exact and_congr_right fun _ => and_congr_left fun _ => hmin
    · exact and_congr_right fun _ => and_congr_left fun _ => hmin
  · intro hvio
    simp only [validateSelection, hvio, Bool.false_eq_true, if_false, List.mem_append]
    refine Or.inl (Or.inr ?_)
    simp
  · intro sev a b c hin
    simp only [validateSelection, List.mem_append] at hin
    rcases hin with ((hin | hin) | hin) | hin
    · split_ifs at hin <;> simp_all
    · split_ifs at hin <;> simp_all
    · rcases hbool : (getDecadeDistribution l).isWellDistributed with _ | _
      · rw [hbool] at hin
        simp only [Bool.false_eq_true, if_false, List.mem_singleton] at hin
        obtain ⟨hs, _, _, _⟩ := Issue.distribution.inj hin
        exact ⟨rfl, hs⟩
      · rw [hbool] at hin
        simp at hin
    · split_ifs at hin <;> simp_all

/-- Witness for `claim_C7` at the concrete set [1,12,23,34,45,56]. -/
theorem claim_C7_witness :
    ([1,12,23,34,45,56] : List ℕ).Nodup ∧
    (∀ x ∈ ([1,12,23,34,45,56] : List ℕ), 1 ≤ x ∧ x ≤ 60) ∧
    6 ≤ ([1,12,23,34,45,56] : List ℕ).length ∧
    (((getDecadeDistribution [1,12,23,34,45,56]).isWellDistributed = true ↔
        specWellDistributedC7 [1,12,23,34,45,56]) ∧
     ((getDecadeDistribution [1,12,23,34,45,56]).isWellDistributed = false →
        Issue.distribution
          (if (getDecadeDistribution [1,12,23,34,45,56]).diversity = 1 then Severity.high
           else Severity.low)
          (getDecadeDistribution [1,12,23,34,45,56]).r1
          (getDecadeDistribution [1,12,23,34,45,56]).r2
          (getDecadeDistribution [1,12,23,34,45,56]).r3
          ∈ (validateSelection [1,12,23,34,45,56]).issues) ∧
     (∀ sev a b c,
        Issue.distribution sev a b c ∈ (validateSelection [1,12,23,34,45,56]).issues →
        (getDecadeDistribution [1,12,23,34,45,56]).isWellDistributed = false ∧
          sev = (if (getDecadeDistribution [1,12,23,34,45,56]).diversity = 1 then Severity.high
                 else Severity.low))) :=
  ⟨by decide, by decide, by decide,
    claim_C7 [1,12,23,34,45,56] (by decide) (by decide) (by decide)⟩

/-! ### Claim C8: permutation invariance of the pattern evaluator -/

/-- Claim C8: for every list of distinct integers in [1,60] and every
permutation of it, `validateSelection` returns the same quality report
(same score and same issues) — evaluation depends only on the underlying
set. -/
theorem claim_C8 (l l' : List ℕ) (hnd : l.Nodup)
    (hmem : ∀ x ∈ l, 1 ≤ x ∧ x ≤ 60) (hperm : l.Perm l') :
    validateSelection l = validateSelection l' := by
  have hsort : sortAscN l = sortAscN l' := by
    have hs1 : (sortAscN l).Sorted (· ≤ ·) := List.sorted_insertionSort (· ≤ ·) l
    have hs2 : (sortAscN l').Sorted (· ≤ ·) := List.sorted_insertionSort (· ≤ ·) l'
    have hp : (sortAscN l).Perm (sortAscN l') :=
      (List.perm_insertionSort (· ≤ ·) l).trans
        (hperm.trans (List.perm_insertionSort (· ≤ ·) l').symm)
    exact List.eq_of_perm_of_sorted hp hs1 hs2
  have hlen : l.length = l'.length := hperm.length_eq
  have h1 : hasConsecutiveIssue l = hasConsecutiveIssue l' := by
    simp only [hasConsecutiveIssue, hsort]
  have h2 : getParityBalance l = getParityBalance l' := by
    simp only [getParityBalance, hlen, (hperm.filter _).length_eq]
  have h3 : getDecadeDistribution l = getDecadeDistribution l' := by
    simp only [getDecadeDistribution, hlen, (hperm.filter _).length_eq]
  have h4 : getMultiplesAnalysis l = getMultiplesAnalysis l' := by
    simp only [getMultiplesAnalysis, hlen, (hperm.filter _).length_eq]
  have h5 : scoreSelectionQuality l = scoreSelectionQuality l' := by
    simp only [scoreSelectionQuality, h1, h2, h3, h4]
  simp only [validateSelection, h1, h2, h3, h4, h5]

/-- Witness for `claim_C8` on the permuted pair [5,20,33] / [33,5,20]. -/
theorem claim_C8_witness :
    ([5,20,33] : List ℕ).Nodup ∧
    (∀ x ∈ ([5,20,33] : List ℕ), 1 ≤ x ∧ x ≤ 60) ∧
    ([5,20,33] : List ℕ).Perm [33,5,20] ∧
    validateSelection [5,20,33] = validateSelection [33,5,20] :=
  ⟨by decide, by decide, by decide,
    claim_C8 [5,20,33] [33,5,20] (by decide) (by decide) (by decide)⟩

/-! ### Allocation solver (closure.js, betLevel part, lines 472-585) -/

/-- One allowed wager level: size (`numbers`) and monetary cost. -/
structure BetLevel where
  numbers : ℕ
  cost : ℕ
  deriving Repr, DecidableEq

/-- One entry of the optimized distribution. -/
structure BetEntry where
  numbers : ℕ
  cost : ℕ
  count : ℕ
  deriving Repr, DecidableEq

/-- Result record of `calculateOptimalBets`. -/
structure OptimalBets where
  betDistribution : List BetEntry
  totalBets : ℕ
  totalCost : ℕ
  remainingFunds : ℕ
  deriving Repr, DecidableEq

/-- One pass of the inner `for (const level of betLevels)` loop at fixed
amount `n1`: `acc` is the current `dp[n1]` cell, `prev m` is `dp[m]` for
`m < n1`.  A level with `cost ≤ n1` whose predecessor amount is solvable
replaces `acc` exactly when it strictly lowers the bet count.  Instead of the
source's `{bets, lastBet, prevAmount}` cell, the embedding stores the full
`lastBet`/`prevAmount` chain (the list of levels the backtracking loop of
lines 517-526 would recover); its length is the `bets` field.  Levels of
cost 0 are skipped by the guard: in the source, `dp[amount - 0]` reads the
very cell being written, which is still `null` on first touch and afterwards
never yields a strictly smaller count, so a cost-0 level never updates the
cell. -/
def dpUpdate (prev : ℕ → Option (List BetLevel)) (n1 : ℕ) (level : BetLevel)
    (acc : Option (List BetLevel)) : Option (List BetLevel) :=
  if 0 < level.cost ∧ level.cost ≤ n1 then
    match prev (n1 - level.cost) with
    | none => acc
    | some p =>
      match acc with
      | none => some (level :: p)
      | some q => if p.length + 1 < q.length then some (level :: p) else acc
  else acc

/-- The inner `for (const level of betLevels)` loop at fixed amount `n1`,
folding `dpUpdate` over the level table. -/
def dpStep (prev : ℕ → Option (List BetLevel)) (n1 : ℕ) :
    List BetLevel → Option (List BetLevel) → Option (List BetLevel)
  | [], acc => acc
  | level :: rest, acc => dpStep prev n1 rest (dpUpdate prev n1 level acc)

/-- The DP table `dp[0..n]` (index `m` holds `dp[m]`), filled in increasing
amount order exactly as the source's double loop does. -/
def dpTable (levels : List BetLevel) : ℕ → List (Option (List BetLevel))
  | 0 => [some []]
  | n + 1 =>
    let t := dpTable levels n
    t ++ [dpStep (fun m => t.getD m none) (n + 1) levels none]

/-- The cell `dp[m]`. -/
def dpAt (levels : List BetLevel) (m : ℕ) : Option (List BetLevel) :=
  (dpTable levels m).getD m none

/-- Total cost of a multiset (list) of levels. -/
def costSum (q : List BetLevel) : ℕ := (q.map BetLevel.cost).sum

/-- The `bestAmount` scan of lines 495-515: the largest amount in
`[1, totalFunds]` whose cell is solvable, and `0` if there is none.  (For
any amount ≥ 1 a solvable cell holds a nonempty chain, so the source's
`dp[amount].bets > 0` test is automatically true there.) -/
def bestAmount (levels : List BetLevel) : ℕ → ℕ
  | 0 => 0
  | n + 1 =>
    match dpAt levels (n + 1) with
    | some _ => n + 1
    | none => bestAmount levels n

/-- `distribution[key]` update of the backtracking loop: the running list of
entries keyed by `numbers`, in first-encounter order; the `cost` field is
taken from the first level creating the key. -/
def insertLevel (level : BetLevel) : List BetEntry → List BetEntry
  | [] => [⟨level.numbers, level.cost, 1⟩]
  | e :: es =>
    if e.numbers = level.numbers then ⟨e.numbers, e.cost, e.count + 1⟩ :: es
    else e :: insertLevel level es

/-- Grouping of the backtracked level chain into per-size entries. -/
def groupEntries (path : List BetLevel) : List BetEntry :=
  path.foldl (fun acc level => insertLevel level acc) []

/-- `.sort((a, b) => b.numbers - a.numbers)`: descending by size. -/
def sortEntriesDesc (es : List BetEntry) : List BetEntry :=
  List.insertionSort (fun a b => b.numbers ≤ a.numbers) es

/-- `calculateOptimalBets(totalFunds, betLevels)` (lines 472-534).  When no
positive amount is reachable the source leaves `bestBets = Infinity` with an
empty distribution (consumed by `calculateBetLevel`'s defensive error
branch); the embedding returns the empty chain (0 bets) in that case. -/
def calculateOptimalBets (totalFunds : ℕ) (levels : List BetLevel) : OptimalBets :=
  let best := bestAmount levels totalFunds
  let path := (dpAt levels best).getD []
  { betDistribution := sortEntriesDesc (groupEntries path)
    totalBets := path.length
    totalCost := best
    remainingFunds := totalFunds - best }

/-! ### Correctness of the DP table -/

lemma dpTable_length (levels : List BetLevel) : ∀ n, (dpTable levels n).length = n + 1
  | 0 => rfl
  | n + 1 => by simp [dpTable, dpTable_length levels n]

lemma getD_concat_length (l : List (Option (List BetLevel))) (x d : Option (List BetLevel)) :
    (l ++ [x]).getD l.length d = x := by
  rw [List.getD_eq_getElem?_getD, List.getElem?_append_right (le_refl _)]
  simp

lemma dpTable_getD_of_le (levels : List BetLevel) :
    ∀ n m, m ≤ n → (dpTable levels n).getD m none = dpAt levels m := by
  intro n
  induction n with
  | zero =>
    intro m h
    have hm : m = 0 := by omega
    subst hm
    rfl
  | succ n ih =>
    intro m h
    rcases Nat.lt_or_ge m (n + 1) with h1 | h1
    · have hm : m ≤ n := by omega
      simp only [dpTable]
      rw [List.getD_eq_getElem?_getD, List.getElem?_append,
        if_pos (by rw [dpTable_length]; omega), ← List.getD_eq_getElem?_getD]
      exact ih m hm
    · have hm : m = n + 1 := by omega
      subst hm
      rfl

lemma dpUpdate_congr {prev prev' : ℕ → Option (List BetLevel)} {n1 : ℕ}
    (h : ∀ m, m < n1 → prev m = prev' m) (level : BetLevel)
    (acc : Option (List BetLevel)) :
    dpUpdate prev n1 level acc = dpUpdate prev' n1 level acc := by
  unfold dpUpdate
  split_ifs with hc
  · rw [h (n1 - level.cost) (by omega)]
  · rfl

lemma dpStep_congr {prev prev' : ℕ → Option (List BetLevel)} {n1 : ℕ}
    (h : ∀ m, m < n1 → prev m = prev' m) :
    ∀ ls acc, dpStep prev n1 ls acc = dpStep prev' n1 ls acc := by
  intro ls
  induction ls with
  | nil => intro acc; rfl
  | cons level rest ih =>
    intro acc
    simp only [dpStep]
    rw [dpUpdate_congr h]
    exact ih _

lemma dpAt_zero (levels : List BetLevel) : dpAt levels 0 = some [] := rfl

lemma dpAt_succ (levels : List BetLevel) (n : ℕ) :
    dpAt levels (n + 1) = dpStep (dpAt levels) (n + 1) levels none := by
  show (dpTable levels (n + 1)).getD (n + 1) none = _
  simp only [dpTable]
  have hcat := getD_concat_length (dpTable levels n)
    (dpStep (fun m => (dpTable levels n).getD m none) (n + 1) levels none) none
  rw [dpTable_length] at hcat
  rw [hcat]
  exact dpStep_congr (fun m hm => dpTable_getD_of_le levels n m (by omega)) levels none

/-- Any `some` result of `dpUpdate` is the accumulator or a valid extension
by the given level. -/
lemma dpUpdate_some_spec {prev : ℕ → Option (List BetLevel)} {n1 : ℕ}
    {level : BetLevel} {acc : Option (List BetLevel)} {r : List BetLevel}
    (h : dpUpdate prev n1 level acc = some r) :
    acc = some r ∨ ∃ p, 0 < level.cost ∧ level.cost ≤ n1 ∧
      prev (n1 - level.cost) = some p ∧ r = level :: p := by
  unfold dpUpdate at h
  split_ifs at h with hc
  · rcases hprev : prev (n1 - level.cost) with _ | p
    · rw [hprev] at h
      exact Or.inl h
    · rw [hprev] at h
      rcases acc with _ | q
      · simp only [Option.some.injEq] at h
        exact Or.inr ⟨p, hc.1, hc.2, rfl, h.symm⟩
      · simp only [] at h
        split_ifs at h with hlt
        · simp only [Option.some.injEq] at h
          exact Or.inr ⟨p, hc.1, hc.2, rfl, h.symm⟩
        · exact Or.inl h
  · exact Or.inl h

/-- `dpUpdate` keeps a `some` accumulator `some`, without increasing length. -/
lemma dpUpdate_acc_le {prev : ℕ → Option (List BetLevel)} {n1 : ℕ}
    {level : BetLevel} {s : List BetLevel} :
    ∃ r, dpUpdate prev n1 level (some s) = some r ∧ r.length ≤ s.length := by
  unfold dpUpdate
  split_ifs with hc
  · rcases hprev : prev (n1 - level.cost) with _ | p
    · exact ⟨s, rfl, le_refl _⟩
    · simp only []
      split_ifs with hlt
      · exact ⟨level :: p, rfl, by simp at hlt ⊢; omega⟩
      · exact ⟨s, rfl, le_refl _⟩
  · exact ⟨s, rfl, le_refl _⟩

/-- When the given level is applicable, `dpUpdate` yields a `some` cell no
longer than `p.length + 1`. -/
lemma dpUpdate_cand_le {prev : ℕ → Option (List BetLevel)} {n1 : ℕ}
    {level : BetLevel} {p : List BetLevel} (acc : Option (List BetLevel))
    (hc0 : 0 < level.cost) (hcle : level.cost ≤ n1)
    (hprev : prev (n1 - level.cost) = some p) :
    ∃ r, dpUpdate prev n1 level acc = some r ∧ r.length ≤ p.length + 1 := by
  unfold dpUpdate
  rw [if_pos (And.intro hc0 hcle), hprev]
  rcases acc with _ | q
  · exact ⟨level :: p, rfl, by simp⟩
  · simp only []
    split_ifs with hlt
    · exact ⟨level :: p, rfl, by simp⟩
    · exact ⟨q, rfl, by simp at hlt; omega⟩

/-- Any `some` result of `dpStep` is the accumulator or a valid extension. -/
lemma dpStep_some_spec {prev : ℕ → Option (List BetLevel)} {n1 : ℕ} :
    ∀ ls acc r, dpStep prev n1 ls acc = some r →
      acc = some r ∨ ∃ level ∈ ls, ∃ p, 0 < level.cost ∧ level.cost ≤ n1 ∧
        prev (n1 - level.cost) = some p ∧ r = level :: p := by
  intro ls
  induction ls with
  | nil =>
    intro acc r h
    exact Or.inl h
  | cons level rest ih =>
    intro acc r h
    simp only [dpStep] at h
    rcases ih _ r h with hacc | ⟨lv, hlv, p, hp⟩
    · rcases dpUpdate_some_spec hacc with hacc' | ⟨p, hp⟩
      · exact Or.inl hacc'
      · exact Or.inr ⟨level, by simp, p, hp⟩
    · exact Or.inr ⟨lv, by simp [hlv], p, hp⟩

/-- A `some` accumulator survives `dpStep` without its length increasing. -/
lemma dpStep_acc_le {prev : ℕ → Option (List BetLevel)} {n1 : ℕ} :
    ∀ ls s, ∃ r, dpStep prev n1 ls (some s) = some r ∧ r.length ≤ s.length := by
  intro ls
  induction ls with
  | nil =>
    intro s
    exact ⟨s, rfl, le_refl _⟩
  | cons level rest ih =>
    intro s
    obtain ⟨r1, hr1, hr1le⟩ := @dpUpdate_acc_le prev n1 level s
    obtain ⟨r, hr, hrle⟩ := ih r1
    refine ⟨r, ?_, le_trans hrle hr1le⟩
    simp only [dpStep, hr1]
    exact hr

/-- The result of `dpStep` is no longer than any valid candidate
`level :: p` coming from a level of the table. -/
lemma dpStep_min_cand {prev : ℕ → Option (List BetLevel)} {n1 : ℕ} :
    ∀ ls acc level p, level ∈ ls → 0 < level.cost → level.cost ≤ n1 →
      prev (n1 - level.cost) = some p →
      ∃ r, dpStep prev n1 ls acc = some r ∧ r.length ≤ p.length + 1 := by
  intro ls
  induction ls with
  | nil =>
    intro acc level p hmem
    simp at hmem
  | cons lv rest ih =>
    intro acc level p hmem hc0 hcle hprev
    rcases List.mem_cons.mp hmem with heq | hmem'
    · subst heq
      obtain ⟨r1, hr1, hr1le⟩ := dpUpdate_cand_le acc hc0 hcle hprev
      obtain ⟨r, hr, hrle⟩ := dpStep_acc_le rest r1
      refine ⟨r, ?_, le_trans hrle hr1le⟩
      simp only [dpStep, hr1]
      exact hr
    · simp only [dpStep]
      exact ih _ level p hmem' hc0 hcle hprev

/-- `dpStep` never turns a solvable accumulator cell into `none`. -/
lemma dpStep_ne_none_of_acc {prev : ℕ → Option (List BetLevel)} {n1 : ℕ}
    (ls : List BetLevel) (s : List BetLevel) :
    dpStep prev n1 ls (some s) ≠ none := by
  obtain ⟨r, hr, _⟩ := @dpStep_acc_le prev n1 ls s
  simp [hr]

/-- Soundness: a solvable cell at amount `n` holds a chain of table levels of
total cost exactly `n`. -/
lemma dpAt_sound (levels : List BetLevel) :
    ∀ n p, dpAt levels n = some p → (∀ x ∈ p, x ∈ levels) ∧ costSum p = n := by
  intro n
  induction n using Nat.strong_induction_on with
  | _ n ih =>
    match n with
    | 0 =>
      intro p hp
      rw [dpAt_zero] at hp
      cases hp
      exact ⟨by simp, rfl⟩
    | n + 1 =>
      intro p hp
      rw [dpAt_succ] at hp
      rcases dpStep_some_spec levels none p hp with hacc | ⟨level, hmem, p', hc0, hcle, hprev, rfl⟩
      · cases hacc
      · obtain ⟨hdec, hsum⟩ := ih (n + 1 - level.cost) (by omega) p' hprev
        refine ⟨?_, ?_⟩
        · intro x hx
          rcases List.mem_cons.mp hx with rfl | hx'
          · exact hmem
          · exact hdec x hx'
        · simp only [costSum, List.map_cons, List.sum_cons] at hsum ⊢
          omega

/-- Completeness: any decomposable amount has a solvable cell (for positive
level costs). -/
lemma dpAt_complete (levels : List BetLevel) (hpos : ∀ x ∈ levels, 0 < x.cost) :
    ∀ n q, (∀ x ∈ q, x ∈ levels) → costSum q = n → dpAt levels n ≠ none := by
  intro n
  induction n using Nat.strong_induction_on with
  | _ n ih =>
    match n with
    | 0 =>
      intro q _ _
      rw [dpAt_zero]
      simp
    | n + 1 =>
      intro q hq hsum
      match q with
      | [] => simp [costSum] at hsum
      | x :: q' =>
        have hx : x ∈ levels := hq x (by simp)
        have hx0 : 0 < x.cost := hpos x hx
        have hsum' : costSum q' = n + 1 - x.cost := by
          simp only [costSum, List.map_cons, List.sum_cons] at hsum ⊢
          omega
        have hxle : x.cost ≤ n + 1 := by
          simp only [costSum, List.map_cons, List.sum_cons] at hsum
          omega
        have hne := ih (n + 1 - x.cost) (Nat.sub_lt (Nat.succ_pos n) hx0) q'
          (fun y hy => hq y (by simp [hy])) hsum'
        obtain ⟨p, hp⟩ := Option.ne_none_iff_exists'.mp hne
        rw [dpAt_succ]
        obtain ⟨r, hr, _⟩ := dpStep_min_cand levels none x p hx hx0 hxle hp
        simp [hr]

/-- Minimality: a solvable cell's chain is at most as long as any
decomposition of the same amount. -/
lemma dpAt_min (levels : List BetLevel) (hpos : ∀ x ∈ levels, 0 < x.cost) :
    ∀ n p q, dpAt levels n = some p → (∀ x ∈ q, x ∈ levels) → costSum q = n →
      p.length ≤ q.length := by
  intro n
  induction n using Nat.strong_induction_on with
  | _ n ih =>
    match n with
    | 0 =>
      intro p q hp _ _
      rw [dpAt_zero] at hp
      cases hp
      simp
    | n + 1 =>
      intro p q hp hq hsum
      match q with
      | [] => simp [costSum] at hsum
      | x :: q' =>
        have hx : x ∈ levels := hq x (by simp)
        have hx0 : 0 < x.cost := hpos x hx
        have hsum' : costSum q' = n + 1 - x.cost := by
          simp only [costSum, List.map_cons, List.sum_cons] at hsum ⊢
          omega
        have hxle : x.cost ≤ n + 1 := by
          simp only [costSum, List.map_cons, List.sum_cons] at hsum
          omega
        have hne := dpAt_complete levels hpos (n + 1 - x.cost) q'
          (fun y hy => hq y (by simp [hy])) hsum'
        obtain ⟨pm, hpm⟩ := Option.ne_none_iff_exists'.mp hne
        have hmin' : pm.length ≤ q'.length := ih (n + 1 - x.cost)
          (Nat.sub_lt (Nat.succ_pos n) hx0) pm q' hpm
          (fun y hy => hq y (by simp [hy])) hsum'
        rw [dpAt_succ] at hp
        obtain ⟨r, hr, hrle⟩ := dpStep_min_cand levels none x pm hx hx0 hxle hpm
        rw [hp] at hr
        cases hr
        simp only [List.length_cons]
        omega

/-! ### The best-amount scan -/

lemma bestAmount_le (levels : List BetLevel) : ∀ f, bestAmount levels f ≤ f := by
  intro f
  induction f with
  | zero => simp [bestAmount]
  | succ n ih =>
    rcases h : dpAt levels (n + 1) with _ | p
    · have hbe : bestAmount levels (n + 1) = bestAmount levels n := by
        simp [bestAmount, h]
      omega
    · have hbe : bestAmount levels (n + 1) = n + 1 := by
        simp [bestAmount, h]
      omega

lemma bestAmount_solvable (levels : List BetLevel) :
    ∀ f, dpAt levels (bestAmount levels f) ≠ none := by
  intro f
  induction f with
  | zero =>
    simp [bestAmount, dpAt_zero]
  | succ n ih =>
    rcases h : dpAt levels (n + 1) with _ | p
    · have hbe : bestAmount levels (n + 1) = bestAmount levels n := by
        simp [bestAmount, h]
      rw [hbe]
      exact ih
    · have hbe : bestAmount levels (n + 1) = n + 1 := by
        simp [bestAmount, h]
      rw [hbe, h]
      simp

lemma bestAmount_maximal (levels : List BetLevel) :
    ∀ f m, 0 < m → m ≤ f → dpAt levels m ≠ none → m ≤ bestAmount levels f := by
  intro f
  induction f with
  | zero =>
    intro m h0 hle _
    omega
  | succ n ih =>
    intro m h0 hle hm
    rcases h : dpAt levels (n + 1) with _ | p
    · have hbe : bestAmount levels (n + 1) = bestAmount levels n := by
        simp [bestAmount, h]
      rw [hbe]
      rcases Nat.lt_or_ge m (n + 1) with h1 | h1
      · exact ih m h0 (by omega) hm
      · have hmeq : m = n + 1 := by omega
        subst hmeq
        exact absurd h hm
    · have hbe : bestAmount levels (n + 1) = n + 1 := by
        simp [bestAmount, h]
      omega

/-! ### Sortedness of the presented distribution -/

instance : IsTotal BetEntry (fun a b => b.numbers ≤ a.numbers) :=
  ⟨fun a b => le_total b.numbers a.numbers⟩

instance : IsTrans BetEntry (fun a b => b.numbers ≤ a.numbers) :=
  ⟨fun _ _ _ hab hbc => le_trans hbc hab⟩

lemma sortEntriesDesc_sorted (es : List BetEntry) :
    List.Pairwise (fun a b => b.numbers ≤ a.numbers) (sortEntriesDesc es) :=
  List.sorted_insertionSort (fun (a b : BetEntry) => b.numbers ≤ a.numbers) es

/-- Claim C1: for any level table with positive costs and any integer funds
at least the cheapest level's cost, the plan returned by
`calculateOptimalBets` spends at most the funds; no feasible multiset of
levels has a strictly larger total cost that still fits the funds; among
decompositions of the chosen total cost the plan's bet count is minimal; and
the presented distribution is sorted by descending wager size. -/
theorem claim_C1 (f : ℕ) (levels : List BetLevel)
    (hpos : ∀ x ∈ levels, 0 < x.cost)
    (hmin : ∃ x ∈ levels, x.cost ≤ f) :
    (calculateOptimalBets f levels).totalCost ≤ f ∧
    (∀ q, (∀ x ∈ q, x ∈ levels) → costSum q ≤ f →
      costSum q ≤ (calculateOptimalBets f levels).totalCost) ∧
    (∀ q, (∀ x ∈ q, x ∈ levels) → costSum q = (calculateOptimalBets f levels).totalCost →
      (calculateOptimalBets f levels).totalBets ≤ q.length) ∧
    List.Pairwise (fun a b => b.numbers ≤ a.numbers)
      (calculateOptimalBets f levels).betDistribution := by
  obtain ⟨p, hp⟩ := Option.ne_none_iff_exists'.mp (bestAmount_solvable levels f)
  have hcost : (calculateOptimalBets f levels).totalCost = bestAmount levels f := rfl
  have hbets : (calculateOptimalBets f levels).totalBets =
      ((dpAt levels (bestAmount levels f)).getD []).length := rfl
  refine ⟨?_, ?_, ?_, ?_⟩
  · rw [hcost]
    exact bestAmount_le levels f
  · intro q hq hqf
    rw [hcost]
    rcases Nat.eq_zero_or_pos (costSum q) with h0 | h0
    · omega
    · exact bestAmount_maximal levels f (costSum q) h0 hqf
        (dpAt_complete levels hpos (costSum q) q hq rfl)
  · intro q hq hqc
    rw [hbets, hp]
    simp only [Option.getD_some]
    exact dpAt_min levels hpos (bestAmount levels f) p q hp hq (by rw [← hcost]; exact hqc)
  · exact sortEntriesDesc_sorted _

/-- The repository's level table {6:R$6, 7:R$42, 8:R$168, 9:R$504}.
Modelled from the spec: `CONFIG.BET_LEVELS` lives in
src/backend/src/config/constants.js, which is not part of the snapshot; the
values are the ones the spec's §8 examples and the repository's
OPTIMIZATIONS.md table use. -/
def stdLevels : List BetLevel := [⟨6, 6⟩, ⟨7, 42⟩, ⟨8, 168⟩, ⟨9, 504⟩]

/-- Witness for `claim_C1` at funds R$48 over the standard table (the spec's
own example: plan 1×7 + 1×6, cost 48, 2 bets). -/
theorem claim_C1_witness :
    (∀ x ∈ stdLevels, 0 < x.cost) ∧ (∃ x ∈ stdLevels, x.cost ≤ 48) ∧
    ((calculateOptimalBets 48 stdLevels).totalCost ≤ 48 ∧
     (∀ q, (∀ x ∈ q, x ∈ stdLevels) → costSum q ≤ 48 →
       costSum q ≤ (calculateOptimalBets 48 stdLevels).totalCost) ∧
     (∀ q, (∀ x ∈ q, x ∈ stdLevels) →
       costSum q = (calculateOptimalBets 48 stdLevels).totalCost →
       (calculateOptimalBets 48 stdLevels).totalBets ≤ q.length) ∧
     List.Pairwise (fun a b => b.numbers ≤ a.numbers)
       (calculateOptimalBets 48 stdLevels).betDistribution) :=
  ⟨by decide, by decide, claim_C1 48 stdLevels (by decide) (by decide)⟩

/-! ### `calculateBetLevel` (closure.js lines 541-585) -/

/-- The backward-compatible summary returned by `calculateBetLevel`.  The
source returns objects of two shapes (an error shape with `betLevel: 0` and
an `error` message, and the full shape); the embedding merges them, with
`error = true` for the two error returns. -/
structure BetLevelInfo where
  betLevel : ℕ
  betCost : ℕ
  totalFunds : ℕ
  remainingFunds : ℕ
  betDistribution : List BetEntry
  totalBets : ℕ
  surplusBets : ℕ
  error : Bool
  deriving Repr, DecidableEq

/-- `calculateBetLevel(totalFunds)` for integer funds: the `totalFunds < 6`
insufficient-funds branch, the defensive empty-distribution branch, and the
backward-compatibility formatting around `calculateOptimalBets`. -/
def calculateBetLevel (totalFunds : ℕ) (levels : List BetLevel) : BetLevelInfo :=
  if totalFunds < 6 then
    { betLevel := 0, betCost := 0, totalFunds := totalFunds, remainingFunds := 0,
      betDistribution := [], totalBets := 0, surplusBets := 0, error := true }
  else
    let optimal := calculateOptimalBets totalFunds levels
    match optimal.betDistribution with
    | [] =>
      { betLevel := 0, betCost := 0, totalFunds := totalFunds, remainingFunds := 0,
        betDistribution := [], totalBets := 0, surplusBets := 0, error := true }
    | largest :: others =>
      { betLevel := largest.numbers
        betCost := largest.cost * largest.count
        totalFunds := totalFunds
        remainingFunds := optimal.remainingFunds
        betDistribution := optimal.betDistribution
        totalBets := optimal.totalBets
        surplusBets := (others.map BetEntry.count).sum
        error := false }

/-- Outcome of `calculateBetLevel` over arbitrary decimal funds. -/
inductive BetLevelOutcome
  | insufficientFunds
  | invalidTableLength
  | plan (info : BetLevelInfo)
  deriving Repr, DecidableEq

/-- `calculateBetLevel` over decimal funds.  JavaScript's
`Array(totalFunds + 1)` in `calculateOptimalBets` throws a `RangeError`
("invalid array length") unless the length is a whole number, so for
non-integer funds ≥ 6 the call fails instead of returning a plan; the
`invalidTableLength` outcome represents that thrown exception. -/
def calculateBetLevelQ (totalFunds : ℚ) (levels : List BetLevel) : BetLevelOutcome :=
  if totalFunds < 6 then BetLevelOutcome.insufficientFunds
  else if totalFunds.den = 1 then
    BetLevelOutcome.plan (calculateBetLevel totalFunds.num.toNat levels)
  else BetLevelOutcome.invalidTableLength

lemma costSum_length_le (p : List BetLevel) (hp : ∀ x ∈ p, 0 < x.cost) :
    p.length ≤ costSum p := by
  induction p with
  | nil => simp [costSum]
  | cons x q ih =>
    have hx : 0 < x.cost := hp x (by simp)
    have hq := ih (fun y hy => hp y (by simp [hy]))
    simp only [costSum, List.map_cons, List.sum_cons, List.length_cons] at hq ⊢
    omega

/-- Claim C10: the allocation solver is total under an integrality
precondition on the funds.  For integer funds `f` the DP table has exactly
`f + 1` cells; every predecessor access `dp[amount - level.cost]` stays
strictly below `amount` (hence in bounds) for positive integer costs; the
backtracking chain of a solvable cell has total cost exactly its amount and
at most `amount` steps, so the backtracking loop terminates; and for
non-integer decimal funds ≥ 6, `calculateBetLevel` does not return a plan
but fails (the `Array(totalFunds + 1)` construction throws). -/
theorem claim_C10 (levels : List BetLevel) (hpos : ∀ x ∈ levels, 0 < x.cost)
    (f : ℕ) (q : ℚ) (hq6 : 6 ≤ q) (hqden : q.den ≠ 1) :
    (dpTable levels f).length = f + 1 ∧
    (∀ amount, amount ≤ f → ∀ level ∈ levels, 0 < level.cost → level.cost ≤ amount →
      amount - level.cost < amount ∧ amount - level.cost < (dpTable levels f).length) ∧
    (∀ n p, dpAt levels n = some p → costSum p = n ∧ p.length ≤ n) ∧
    calculateBetLevelQ q levels = BetLevelOutcome.invalidTableLength := by
  refine ⟨dpTable_length levels f, ?_, ?_, ?_⟩
  · intro amount hle level _ hc0 hcle
    rw [dpTable_length levels f]
    omega
  · intro n p hp
    obtain ⟨hdec, hsum⟩ := dpAt_sound levels n p hp
    refine ⟨hsum, ?_⟩
    calc p.length ≤ costSum p := costSum_length_le p (fun x hx => hpos x (hdec x hx))
    _ = n := hsum
  · rw [calculateBetLevelQ, if_neg (by linarith), if_neg hqden]

/-- Witness for `claim_C10` over the standard table, funds 10 and the
non-integer funds 13/2. -/
theorem claim_C10_witness :
    (∀ x ∈ stdLevels, 0 < x.cost) ∧ (6 ≤ (13/2 : ℚ)) ∧ ((13/2 : ℚ).den ≠ 1) ∧
    ((dpTable stdLevels 10).length = 10 + 1 ∧
     (∀ amount, amount ≤ 10 → ∀ level ∈ stdLevels, 0 < level.cost →
       level.cost ≤ amount →
       amount - level.cost < amount ∧
         amount - level.cost < (dpTable stdLevels 10).length) ∧
     (∀ n p, dpAt stdLevels n = some p → costSum p = n ∧ p.length ≤ n) ∧
     calculateBetLevelQ (13/2) stdLevels = BetLevelOutcome.invalidTableLength) :=
  ⟨by decide, by norm_num, by decide,
    claim_C10 stdLevels (by decide) 10 (13/2) (by norm_num) (by decide)⟩

/-! ### Smart selector (part_000 lines 652-875)

`Math.random()` is modelled by an injected stream (`RState`), as the spec's
design notes prescribe for the randomized fallback paths. -/

/-- Random source: the stream and the number of calls made so far. -/
structure RState where
  g : ℕ → ℕ
  t : ℕ

/-- One `Math.floor(Math.random() * len)` call: an arbitrary index below
`len` (for `len > 0`), consuming one stream position. -/
def draw (s : RState) (len : ℕ) : ℕ × RState :=
  (s.g s.t % len, ⟨s.g, s.t + 1⟩)

/-- `wouldCreateConsecutive(selected, candidate)` (lines 725-733): adding
the candidate would give a run of length ≥ 3 or more than one 2-run. -/
def wouldCreateConsecutive (selected : List ℕ) (candidate : ℕ) : Bool :=
  (hasConsecutiveIssue (selected ++ [candidate])).hasIssue

/-- `wouldMaintainParity(selected, candidate, targetCount)` (lines 742-752):
free during the first half of the picks, then the even ratio must stay in
[0.2, 0.8].  (For `targetCount = 0` the JavaScript progress is `Infinity`
and the ratio test applies; that case is unreachable, since the greedy loop
stops before any check once `selected.length === count`.) -/
def wouldMaintainParity (selected : List ℕ) (candidate : ℕ) (targetCount : ℕ) : Bool :=
  let temp := selected ++ [candidate]
  let evenCount := (temp.filter (fun n => n % 2 = 0)).length
  let ratio : ℚ := (evenCount : ℚ) / (temp.length : ℚ)
  if (temp.length : ℚ) / (targetCount : ℚ) < 1/2 then true
  else decide ((1 : ℚ)/5 ≤ ratio ∧ ratio ≤ 4/5)

/-- `wouldMaintainDistribution(selected, candidate, targetCount)`
(lines 761-787): free during the first half, then the range concentration
must stay below the size-dependent ceiling. -/
def wouldMaintainDistribution (selected : List ℕ) (candidate : ℕ)
    (targetCount : ℕ) : Bool :=
  let temp := selected ++ [candidate]
  if (temp.length : ℚ) / (targetCount : ℚ) < 1/2 then true
  else
    let lowC := (temp.filter (fun n => 1 ≤ n ∧ n ≤ 20)).length
    let midC := (temp.filter (fun n => 21 ≤ n ∧ n ≤ 40)).length
    let highC := (temp.filter (fun n => 41 ≤ n ∧ n ≤ 60)).length
    let maxConc : ℚ := (max lowC (max midC highC) : ℚ) / (temp.length : ℚ)
    if 8 ≤ targetCount then decide (maxConc ≤ 3/5)
    else if targetCount = 7 then decide (maxConc ≤ 13/20)
    else decide (maxConc ≤ 7/10)

/-- Selection strictness tiers. -/
inductive Strictness
  | low
  | medium
  | high
  deriving Repr, DecidableEq

/-- A pool candidate: `{number, score, votes?}`. -/
structure Candidate where
  number : ℕ
  score : ℚ
  votes : Option ℕ
  deriving Repr, DecidableEq

/-- The comparator of lines 807-812: when both candidates carry votes, more
votes first, score as tie-breaker; otherwise score only.  (`true` means `a`
may come before `b`; the repository only sorts homogeneous pools — all
candidates with votes or none — where this comparator is a total preorder.) -/
def candBefore (a b : Candidate) : Bool :=
  match a.votes, b.votes with
  | some va, some vb => if va ≠ vb then decide (vb ≤ va) else decide (b.score ≤ a.score)
  | _, _ => decide (b.score ≤ a.score)

/-- The candidate sort (stable, as JavaScript's). -/
def sortCandidates (candidates : List Candidate) : List Candidate :=
  List.insertionSort (fun a b => candBefore a b) candidates

/-- The greedy pass of lines 817-846: walk the ranked candidates, skip
duplicates and (per strictness) pattern-breaking numbers, stop at `count`. -/
def greedyPhase (count : ℕ) (strict : Strictness) :
    List Candidate → List ℕ → List ℕ
  | [], selected => selected
  | c :: rest, selected =>
    if selected.length = count then selected
    else if selected.contains c.number then greedyPhase count strict rest selected
    else if strict ≠ Strictness.low ∧ wouldCreateConsecutive selected c.number then
      greedyPhase count strict rest selected
    else if strict ≠ Strictness.low ∧
        ¬ wouldMaintainDistribution selected c.number count then
      greedyPhase count strict rest selected
    else if strict = Strictness.high ∧
        ¬ wouldMaintainParity selected c.number count then
      greedyPhase count strict rest selected
    else greedyPhase count strict rest (selected ++ [c.number])

/-- The do/while retry of lines 689-703: draw an index, remove the drawn
element from the pool, retry (up to 10 splices in total, here `fuel = 9`
further attempts) while the draw would create a consecutive issue and the
pool is not exhausted; the last drawn element is accepted. -/
def pickLoop (selected : List ℕ) : ℕ → List ℕ → RState → ℕ × List ℕ × RState
  | fuel, pool, s =>
    let d := draw s pool.length
    let c := pool.getD d.1 0
    let pool' := pool.eraseIdx d.1
    match fuel with
    | 0 => (c, pool', d.2)
    | fuel' + 1 =>
      if 0 < pool'.length ∧ wouldCreateConsecutive selected c then
        pickLoop selected fuel' pool' d.2
      else (c, pool', d.2)

/-- One accepted pick (the loop body runs at most 10 times). -/
def pickOne (selected : List ℕ) (pool : List ℕ) (s : RState) :
    ℕ × List ℕ × RState :=
  pickLoop selected 9 pool s

/-- The per-range loop `for (let i = 0; i < target && pool.length > 0; i++)`
of lines 685-705, pushing each accepted pick onto the selection. -/
def pickMany (selected : List ℕ) : ℕ → List ℕ → RState → List ℕ × List ℕ × RState
  | 0, pool, s => ([], pool, s)
  | t + 1, pool, s =>
    if pool.length = 0 then ([], pool, s)
    else
      let r := pickOne selected pool s
      let rest := pickMany (selected ++ [r.1]) t r.2.1 r.2.2
      (r.1 :: rest.1, rest.2.1, rest.2.2)

/-- The final `while (selected.length < count && available.length > 0)` fill
loop of lines 708-714, drawing uniformly from the not-yet-selected part of
`available`; `fuel` bounds the iterations (each adds one element, so
`count` iterations always suffice). -/
def fillLoop (count : ℕ) (available : List ℕ) :
    ℕ → List ℕ → RState → List ℕ × RState
  | 0, sel, s => (sel, s)
  | fuel + 1, sel, s =>
    if sel.length < count ∧ 0 < available.length then
      let remaining := available.filter (fun n => ¬ sel.contains n)
      if remaining.length = 0 then (sel, s)
      else
        let d := draw s remaining.length
        fillLoop count available fuel (sel ++ [remaining.getD d.1 0]) d.2
    else (sel, s)

/-- The numbers 1..60 outside the exclusion list
(`Array.from({length: 60}, ...).filter(n => !exclude.includes(n))`). -/
def availableFor (exclude : List ℕ) : List ℕ :=
  (List.range' 1 60).filter (fun n => ¬ exclude.contains n)

/-- The `targetPerRange` split of lines 667-675 (low, mid, high). -/
def decadeTargets (count : ℕ) : ℕ × ℕ × ℕ :=
  if 9 ≤ count then (3, 3, 3)
  else if count = 8 then (3, 3, 2)
  else if count = 7 then (2, 2, 3)
  else (2, 2, 2)

/-- The per-decade selection phase of lines 677-705: split `available` into
the three decade pools and pick the per-range targets from each, in the
object-entry order low, mid, high. -/
def decadePhase (count : ℕ) (available : List ℕ) (s : RState) :
    List ℕ × RState :=
  let targets := decadeTargets count
  let poolLow := available.filter (fun n => 1 ≤ n ∧ n ≤ 20)
  let poolMid := available.filter (fun n => 21 ≤ n ∧ n ≤ 40)
  let poolHigh := available.filter (fun n => 41 ≤ n ∧ n ≤ 60)
  let rLow := pickMany [] targets.1 poolLow s
  let rMid := pickMany rLow.1 targets.2.1 poolMid rLow.2.2
  let rHigh := pickMany (rLow.1 ++ rMid.1) targets.2.2 poolHigh rMid.2.2
  (rLow.1 ++ rMid.1 ++ rHigh.1, rHigh.2.2)

/-- `generateRandomWithDistribution(count, exclude)` (lines 660-717):
decade-balanced random generation over the numbers outside `exclude`,
topped up by the fill loop and sorted. -/
def generateRandomWithDistribution (count : ℕ) (exclude : List ℕ) (s : RState) :
    List ℕ × RState :=
  let available := availableFor exclude
  let d := decadePhase count available s
  let final := fillLoop count available count d.1 d.2
  (sortAscN final.1, final.2)

/-- `selectBestNumbers(candidates, count, options)` (lines 798-875): ranked
greedy pass; if it selects fewer than `count` numbers, the partial selection
is discarded and replaced by the decade-balanced random fallback (which
receives the partial selection as its exclusion list).  The returned flag
records whether the randomized fallback ran (instrumentation for the claims
about randomized-path usage; the source returns only the sorted list).  The
`minQualityScore` option only affects logging and is omitted. -/
def selectBestNumbers (candidates : List Candidate) (count : ℕ)
    (strict : Strictness) (s : RState) : List ℕ × RState × Bool :=
  let sorted := sortCandidates candidates
  let selected := greedyPhase count strict sorted []
  if selected.length < count then
    let r := generateRandomWithDistribution count selected s
    (sortAscN r.1, r.2, true)
  else (sortAscN selected, s, false)

/-! ### Properties of the random fallback -/

lemma getD_mem_of_lt {l : List ℕ} {i : ℕ} (h : i < l.length) (d : ℕ) :
    l.getD i d ∈ l := by
  rw [List.getD_eq_getElem?_getD, List.getElem?_eq_getElem h]
  simpa using List.getElem_mem h

lemma getD_not_mem_eraseIdx {l : List ℕ} (hnd : l.Nodup) {i : ℕ}
    (h : i < l.length) (d : ℕ) : l.getD i d ∉ l.eraseIdx i := by
  have hg : l.getD i d = l[i] := by
    rw [List.getD_eq_getElem?_getD, List.getElem?_eq_getElem h]
    rfl
  rw [hg, ← hnd.erase_getElem i h]
  intro hmem
  exact ((List.Nodup.mem_erase_iff hnd).mp hmem).1 rfl

lemma pickLoop_spec (selected : List ℕ) :
    ∀ fuel pool s, pool ≠ [] → pool.Nodup →
      (pickLoop selected fuel pool s).1 ∈ pool ∧
      (∀ x ∈ (pickLoop selected fuel pool s).2.1, x ∈ pool) ∧
      (pickLoop selected fuel pool s).1 ∉ (pickLoop selected fuel pool s).2.1 ∧
      (pickLoop selected fuel pool s).2.1.Nodup := by
  intro fuel
  induction fuel with
  | zero =>
    intro pool s hne hnd
    have hlen : 0 < pool.length := List.length_pos.mpr hne
    have hi : (draw s pool.length).1 < pool.length := Nat.mod_lt _ hlen
    simp only [pickLoop]
    exact ⟨getD_mem_of_lt hi 0, fun x hx => List.eraseIdx_subset _ _ hx,
      getD_not_mem_eraseIdx hnd hi 0, hnd.eraseIdx _⟩
  | succ fuel ih =>
    intro pool s hne hnd
    have hlen : 0 < pool.length := List.length_pos.mpr hne
    have hi : (draw s pool.length).1 < pool.length := Nat.mod_lt _ hlen
    simp only [pickLoop]
    split_ifs with hcond
    · have hne' : pool.eraseIdx (draw s pool.length).1 ≠ [] := by
        intro h0
        rw [h0] at hcond
        simp at hcond
      obtain ⟨h1, h2, h3, h4⟩ :=
        ih (pool.eraseIdx (draw s pool.length).1) (draw s pool.length).2 hne'
          (hnd.eraseIdx _)
      exact ⟨List.eraseIdx_subset _ _ h1,
        fun x hx => List.eraseIdx_subset _ _ (h2 x hx), h3, h4⟩
    · exact ⟨getD_mem_of_lt hi 0, fun x hx => List.eraseIdx_subset _ _ hx,
        getD_not_mem_eraseIdx hnd hi 0, hnd.eraseIdx _⟩

lemma pickMany_spec :
    ∀ t selected pool s, pool.Nodup →
      (∀ x ∈ (pickMany selected t pool s).1, x ∈ pool) ∧
      (pickMany selected t pool s).1.Nodup ∧
      (∀ x ∈ (pickMany selected t pool s).2.1,
        x ∈ pool ∧ x ∉ (pickMany selected t pool s).1) ∧
      (pickMany selected t pool s).2.1.Nodup ∧
      (pickMany selected t pool s).1.length ≤ t := by
  intro t
  induction t with
  | zero =>
    intro selected pool s hnd
    simp only [pickMany]
    exact ⟨by simp, by simp, fun x hx => ⟨hx, by simp⟩, hnd, by simp⟩
  | succ t ih =>
    intro selected pool s hnd
    by_cases hp : pool.length = 0
    · simp only [pickMany, if_pos hp]
      exact ⟨by simp, by simp, fun x hx => ⟨hx, by simp⟩, hnd, by simp⟩
    · have hne : pool ≠ [] := by
        intro h
        rw [h] at hp
        simp at hp
      obtain ⟨hc_mem, hsub, hc_nin, hnd'⟩ := pickLoop_spec selected 9 pool s hne hnd
      rw [show pickLoop selected 9 pool s = pickOne selected pool s from rfl]
        at hc_mem hsub hc_nin hnd'
      obtain ⟨r1sub, r1nd, rpool, rpoolnd, r1len⟩ :=
        ih (selected ++ [(pickOne selected pool s).1]) (pickOne selected pool s).2.1
          (pickOne selected pool s).2.2 hnd'
      simp only [pickMany, if_neg hp]
      refine ⟨?_, ?_, ?_, rpoolnd, ?_⟩
      · intro x hx
        rcases List.mem_cons.mp hx with rfl | hx'
        · exact hc_mem
        · exact hsub x (r1sub x hx')
      · refine List.Pairwise.cons ?_ r1nd
        intro y hy hxy
        apply hc_nin
        rw [hxy]
        exact r1sub y hy
      · intro x hx
        obtain ⟨hx1, hx2⟩ := rpool x hx
        refine ⟨hsub x hx1, ?_⟩
        intro hxin
        rcases List.mem_cons.mp hxin with rfl | hx'
        · exact hc_nin hx1
        · exact hx2 hx'
      · simpa using r1len

lemma filter_contains_length_le (available sel : List ℕ) (hav : available.Nodup) :
    (available.filter (fun n => sel.contains n)).length ≤ sel.length := by
  refine (List.subperm_of_subset (hav.filter _) ?_).length_le
  intro x hx
  have h := (List.mem_filter.mp hx).2
  simpa using h

lemma length_avail_ge (available sel : List ℕ) (hav : available.Nodup) :
    available.length ≤ (available.filter (fun n => ¬ sel.contains n)).length + sel.length := by
  have hsplit := available.length_eq_length_filter_add (fun n => sel.contains n)
  have hcong : available.filter (fun n => !(sel.contains n)) =
      available.filter (fun n => ¬ sel.contains n) := by
    apply List.filter_congr
    intro x _
    cases h : sel.contains x <;> simp [h]
  rw [hcong] at hsplit
  have h1 := filter_contains_length_le available sel hav
  omega

lemma fillLoop_spec (count : ℕ) (available : List ℕ) (hav : available.Nodup) :
    ∀ fuel sel s, sel.Nodup → (∀ x ∈ sel, x ∈ available) →
      (fillLoop count available fuel sel s).1.Nodup ∧
      (∀ x ∈ (fillLoop count available fuel sel s).1, x ∈ available ∨ x ∈ sel) ∧
      (count ≤ available.length → sel.length ≤ count → count ≤ sel.length + fuel →
        (fillLoop count available fuel sel s).1.length = count) := by
  intro fuel
  induction fuel with
  | zero =>
    intro sel s hnd hsub
    simp only [fillLoop]
    exact ⟨hnd, fun x hx => Or.inr hx, fun _ h1 h2 => by omega⟩
  | succ fuel ih =>
    intro sel s hnd hsub
    simp only [fillLoop]
    split_ifs with hcond hrem
    · -- remaining is empty: the loop stops with `sel`
      refine ⟨hnd, fun x hx => Or.inr hx, ?_⟩
      intro hc1 hc2 hc3
      have hge := length_avail_ge available sel hav
      omega
    · -- one element is drawn and appended
      have hlenr : 0 < (available.filter (fun n => ¬ sel.contains n)).length := by
        omega
      have hi : (draw s (available.filter (fun n => ¬ sel.contains n)).length).1 <
          (available.filter (fun n => ¬ sel.contains n)).length :=
        Nat.mod_lt _ hlenr
      have hxrem : (available.filter (fun n => ¬ sel.contains n)).getD
          (draw s (available.filter (fun n => ¬ sel.contains n)).length).1 0 ∈
          available.filter (fun n => ¬ sel.contains n) := getD_mem_of_lt hi 0
      have hxav := (List.mem_filter.mp hxrem).1
      have hxnin : (available.filter (fun n => ¬ sel.contains n)).getD
          (draw s (available.filter (fun n => ¬ sel.contains n)).length).1 0 ∉ sel := by
        have h := (List.mem_filter.mp hxrem).2
        simpa using h
      have hnd' : (sel ++ [(available.filter (fun n => ¬ sel.contains n)).getD
          (draw s (available.filter (fun n => ¬ sel.contains n)).length).1 0]).Nodup := by
        refine List.Nodup.append hnd (List.nodup_singleton _) ?_
        intro a ha ha'
        rw [List.mem_singleton.mp ha'] at ha
        exact hxnin ha
      have hsub' : ∀ x ∈ sel ++ [(available.filter (fun n => ¬ sel.contains n)).getD
          (draw s (available.filter (fun n => ¬ sel.contains n)).length).1 0],
          x ∈ available := by
        intro x hx
        rcases List.mem_append.mp hx with hx' | hx'
        · exact hsub x hx'
        · rw [List.mem_singleton.mp hx']
          exact hxav
      obtain ⟨h1, h2, h3⟩ := ih _ _ hnd' hsub'
      refine ⟨h1, ?_, ?_⟩
      · intro x hx
        rcases h2 x hx with hx' | hx'
        · exact Or.inl hx'
        · exact Or.inl (hsub' x hx')
      · intro hc1 hc2 hc3
        refine h3 hc1 ?_ ?_ <;>
          simp only [List.length_append, List.length_singleton] <;> omega
    · refine ⟨hnd, fun x hx => Or.inr hx, ?_⟩
      intro hc1 hc2 hc3
      show sel.length = count
      omega

lemma decadeTargets_sum_le (count : ℕ) (h6 : 6 ≤ count) :
    (decadeTargets count).1 + (decadeTargets count).2.1 +
      (decadeTargets count).2.2 ≤ count := by
  unfold decadeTargets
  split_ifs <;> simp <;> omega

lemma decadePhase_spec (count : ℕ) (available : List ℕ) (s : RState)
    (hav : available.Nodup) :
    (decadePhase count available s).1.Nodup ∧
    (∀ x ∈ (decadePhase count available s).1, x ∈ available) ∧
    (6 ≤ count → (decadePhase count available s).1.length ≤ count) := by
  simp only [decadePhase]
  set poolLow := available.filter (fun n => 1 ≤ n ∧ n ≤ 20) with hPL
  set poolMid := available.filter (fun n => 21 ≤ n ∧ n ≤ 40) with hPM
  set poolHigh := available.filter (fun n => 41 ≤ n ∧ n ≤ 60) with hPH
  set rLow := pickMany [] (decadeTargets count).1 poolLow s with hrLow
  set rMid := pickMany rLow.1 (decadeTargets count).2.1 poolMid rLow.2.2 with hrMid
  set rHigh := pickMany (rLow.1 ++ rMid.1) (decadeTargets count).2.2 poolHigh
    rMid.2.2 with hrHigh
  obtain ⟨lsub, lnd, _, _, llen⟩ :=
    pickMany_spec (decadeTargets count).1 [] poolLow s (hav.filter _)
  obtain ⟨msub, mnd, _, _, mlen⟩ :=
    pickMany_spec (decadeTargets count).2.1 rLow.1 poolMid rLow.2.2 (hav.filter _)
  obtain ⟨hsub, hnd, _, _, hlen⟩ :=
    pickMany_spec (decadeTargets count).2.2 (rLow.1 ++ rMid.1) poolHigh
      rMid.2.2 (hav.filter _)
  rw [← hrLow] at lsub lnd llen
  rw [← hrMid] at msub mnd mlen
  rw [← hrHigh] at hsub hnd hlen
  have lmem : ∀ x ∈ rLow.1, x ∈ available ∧ 1 ≤ x ∧ x ≤ 20 := by
    intro x hx
    have h1 := List.mem_filter.mp (lsub x hx)
    refine ⟨h1.1, ?_⟩
    simpa using h1.2
  have mmem : ∀ x ∈ rMid.1, x ∈ available ∧ 21 ≤ x ∧ x ≤ 40 := by
    intro x hx
    have h1 := List.mem_filter.mp (msub x hx)
    refine ⟨h1.1, ?_⟩
    simpa using h1.2
  have hmem60 : ∀ x ∈ rHigh.1, x ∈ available ∧ 41 ≤ x ∧ x ≤ 60 := by
    intro x hx
    have h1 := List.mem_filter.mp (hsub x hx)
    refine ⟨h1.1, ?_⟩
    simpa using h1.2
  have hndLM : (rLow.1 ++ rMid.1).Nodup := by
    refine List.Nodup.append lnd mnd ?_
    intro a ha ha'
    have h1 := (lmem a ha).2.2
    have h2 := (mmem a ha').2.1
    omega
  refine ⟨?_, ?_, ?_⟩
  · refine List.Nodup.append hndLM hnd ?_
    intro a ha ha'
    have h2 := (hmem60 a ha').2.1
    rcases List.mem_append.mp ha with h | h
    · have h1 := (lmem a h).2.2
      omega
    · have h1 := (mmem a h).2.2
      omega
  · intro x hx
    rcases List.mem_append.mp hx with hx' | hx'
    · rcases List.mem_append.mp hx' with hx'' | hx''
      · exact (lmem x hx'').1
      · exact (mmem x hx'').1
    · exact (hmem60 x hx').1
  · intro h6
    have hT := decadeTargets_sum_le count h6
    simp only [List.length_append]
    omega

lemma availableFor_nodup (exclude : List ℕ) : (availableFor exclude).Nodup :=
  (List.nodup_range' 1 60).filter _

lemma mem_availableFor {exclude : List ℕ} {x : ℕ} :
    x ∈ availableFor exclude ↔ (1 ≤ x ∧ x ≤ 60) ∧ x ∉ exclude := by
  unfold availableFor
  rw [List.mem_filter, List.mem_range'_1]
  constructor
  · rintro ⟨⟨h1, h2⟩, h3⟩
    refine ⟨⟨h1, by omega⟩, ?_⟩
    simpa using h3
  · rintro ⟨⟨h1, h2⟩, h3⟩
    refine ⟨⟨h1, by omega⟩, ?_⟩
    simpa using h3

lemma availableFor_length (exclude : List ℕ) (hnd : exclude.Nodup)
    (hmem : ∀ x ∈ exclude, 1 ≤ x ∧ x ≤ 60) :
    (availableFor exclude).length = 60 - exclude.length := by
  have hsplit := (List.range' 1 60).length_eq_length_filter_add
    (fun n => exclude.contains n)
  have hcong : (List.range' 1 60).filter (fun n => !(exclude.contains n)) =
      availableFor exclude := by
    unfold availableFor
    apply List.filter_congr
    intro x _
    cases h : exclude.contains x <;> simp [h]
  rw [hcong] at hsplit
  have hpm : ((List.range' 1 60).filter (fun n => exclude.contains n)).Perm exclude := by
    rw [List.perm_ext_iff_of_nodup ((List.nodup_range' 1 60).filter _) hnd]
    intro a
    rw [List.mem_filter, List.mem_range'_1]
    constructor
    · rintro ⟨_, h2⟩
      simpa using h2
    · intro ha
      have h1 := hmem a ha
      exact ⟨⟨h1.1, by omega⟩, by simpa using ha⟩
  have hlen60 : (List.range' 1 60).length = 60 := by simp
  have := hpm.length_eq
  omega

/-- Length, distinctness, membership and strict sortedness through the final
ascending sort. -/
lemma sortAscN_wrap (l : List ℕ) (hnd : l.Nodup) :
    (sortAscN l).length = l.length ∧ (sortAscN l).Nodup ∧
    (∀ x, x ∈ sortAscN l ↔ x ∈ l) ∧ (sortAscN l).Sorted (· < ·) := by
  have hperm : (sortAscN l).Perm l := List.perm_insertionSort _ l
  have hnd' : (sortAscN l).Nodup := hperm.nodup_iff.mpr hnd
  exact ⟨hperm.length_eq, hnd', fun x => hperm.mem_iff,
    List.Sorted.lt_of_le (List.sorted_insertionSort (· ≤ ·) l) hnd'⟩

lemma grwd_spec (count : ℕ) (exclude : List ℕ) (s : RState) :
    (generateRandomWithDistribution count exclude s).1.Nodup ∧
    (∀ x ∈ (generateRandomWithDistribution count exclude s).1,
      x ∈ availableFor exclude) ∧
    (6 ≤ count → count ≤ (availableFor exclude).length →
      (generateRandomWithDistribution count exclude s).1.length = count) := by
  simp only [generateRandomWithDistribution]
  set avail := availableFor exclude with havail
  set d := decadePhase count avail s with hd
  set final := fillLoop count avail count d.1 d.2 with hfinal
  obtain ⟨dnd, dsub, dlen⟩ := decadePhase_spec count avail s (availableFor_nodup exclude)
  rw [← hd] at dnd dsub dlen
  obtain ⟨fnd, fsub, flen⟩ := fillLoop_spec count avail (availableFor_nodup exclude)
    count d.1 d.2 dnd dsub
  rw [← hfinal] at fnd fsub flen
  obtain ⟨hswl, hswnd, hswmem, _⟩ := sortAscN_wrap final.1 fnd
  refine ⟨hswnd, ?_, ?_⟩
  · intro x hx
    rcases fsub x ((hswmem x).mp hx) with h | h
    · exact h
    · exact dsub x h
  · intro h6 hcle
    rw [hswl]
    exact flen hcle (dlen h6) (by omega)

/-- Invariants of the greedy pass: distinct picks, never more than `count`,
and every pick comes from the prior selection or the candidate list. -/
lemma greedyPhase_spec (count : ℕ) (strict : Strictness) :
    ∀ cs selected, selected.Nodup → selected.length ≤ count →
      (greedyPhase count strict cs selected).Nodup ∧
      (greedyPhase count strict cs selected).length ≤ count ∧
      (∀ x ∈ greedyPhase count strict cs selected,
        x ∈ selected ∨ ∃ c ∈ cs, c.number = x) := by
  intro cs
  induction cs with
  | nil =>
    intro selected hnd hle
    simp only [greedyPhase]
    exact ⟨hnd, hle, fun x hx => Or.inl hx⟩
  | cons c rest ih =>
    intro selected hnd hle
    simp only [greedyPhase]
    have hskip : ∀ h : (greedyPhase count strict rest selected).Nodup ∧
        (greedyPhase count strict rest selected).length ≤ count ∧
        (∀ x ∈ greedyPhase count strict rest selected,
          x ∈ selected ∨ ∃ c' ∈ rest, c'.number = x),
        (greedyPhase count strict rest selected).Nodup ∧
        (greedyPhase count strict rest selected).length ≤ count ∧
        (∀ x ∈ greedyPhase count strict rest selected,
          x ∈ selected ∨ ∃ c' ∈ c :: rest, c'.number = x) := by
      intro h
      refine ⟨h.1, h.2.1, fun x hx => ?_⟩
      rcases h.2.2 x hx with h' | ⟨c', hc', hcx⟩
      · exact Or.inl h'
      · exact Or.inr ⟨c', by simp [hc'], hcx⟩
    split_ifs with h1 h2 h3 h4 h5
    · exact ⟨hnd, hle, fun x hx => Or.inl hx⟩
    · exact hskip (ih selected hnd hle)
    · exact hskip (ih selected hnd hle)
    · exact hskip (ih selected hnd hle)
    · exact hskip (ih selected hnd hle)
    · have hnin : c.number ∉ selected := by simpa using h2
      have hnd' : (selected ++ [c.number]).Nodup := by
        refine List.Nodup.append hnd (List.nodup_singleton _) ?_
        intro a ha ha'
        rw [List.mem_singleton.mp ha'] at ha
        exact hnin ha
      have hle' : (selected ++ [c.number]).length ≤ count := by
        simp only [List.length_append, List.length_singleton]
        omega
      obtain ⟨a, b, cmem⟩ := ih _ hnd' hle'
      refine ⟨a, b, fun x hx => ?_⟩
      rcases cmem x hx with hx' | ⟨c', hc', hcx⟩
      · rcases List.mem_append.mp hx' with h | h
        · exact Or.inl h
        · exact Or.inr ⟨c, by simp, (List.mem_singleton.mp h).symm⟩
      · exact Or.inr ⟨c', by simp [hc'], hcx⟩

/-- Claim C6 (amended): for every candidate pool of distinct numbers in
[1,60] and every target count 6 ≤ k ≤ 30, the wager returned by
`selectBestNumbers` — through the greedy path or the fallback path —
contains exactly k pairwise-distinct values, each in [1,60], in strictly
ascending order.  (Outside that range the fallback can return a different
number count; see the counterexample.) -/
theorem claim_C6_amended (cands : List Candidate) (k : ℕ) (strict : Strictness)
    (s : RState) (hk6 : 6 ≤ k) (hk30 : k ≤ 30)
    (hmem : ∀ c ∈ cands, 1 ≤ c.number ∧ c.number ≤ 60)
    (hnd : (cands.map Candidate.number).Nodup) :
    (selectBestNumbers cands k strict s).1.length = k ∧
    (selectBestNumbers cands k strict s).1.Nodup ∧
    (∀ x ∈ (selectBestNumbers cands k strict s).1, 1 ≤ x ∧ x ≤ 60) ∧
    (selectBestNumbers cands k strict s).1.Sorted (· < ·) := by
  simp only [selectBestNumbers]
  set sorted := sortCandidates cands with hsorted
  set sel := greedyPhase k strict sorted [] with hsel
  obtain ⟨gnd, glen, gmem⟩ := greedyPhase_spec k strict sorted [] (by simp) (by simp)
  rw [← hsel] at gnd glen gmem
  have hsortedmem : ∀ c ∈ sorted, 1 ≤ c.number ∧ c.number ≤ 60 := by
    intro c hc
    exact hmem c ((List.perm_insertionSort _ cands).mem_iff.mp hc)
  have gmem60 : ∀ x ∈ sel, 1 ≤ x ∧ x ≤ 60 := by
    intro x hx
    rcases gmem x hx with h | ⟨c, hc, hcx⟩
    · simp at h
    · rw [← hcx]
      exact hsortedmem c hc
  split_ifs with hfall
  · set r := generateRandomWithDistribution k sel s with hr
    obtain ⟨rnd, rsub, rlen⟩ := grwd_spec k sel s
    rw [← hr] at rnd rsub rlen
    have havail_len : (availableFor sel).length = 60 - sel.length :=
      availableFor_length sel gnd gmem60
    have hklen : k ≤ (availableFor sel).length := by omega
    obtain ⟨hswl, hswnd, hswmem, hswsort⟩ := sortAscN_wrap r.1 rnd
    refine ⟨?_, hswnd, ?_, hswsort⟩
    · rw [hswl]
      exact rlen hk6 hklen
    · intro x hx
      exact (mem_availableFor.mp (rsub x ((hswmem x).mp hx))).1
  · obtain ⟨hswl, hswnd, hswmem, hswsort⟩ := sortAscN_wrap sel gnd
    refine ⟨?_, hswnd, ?_, hswsort⟩
    · rw [hswl]
      omega
    · intro x hx
      exact gmem60 x ((hswmem x).mp hx)

/-- Witness for `claim_C6_amended` on a six-candidate pool at k = 6. -/
theorem claim_C6_witness :
    (6 : ℕ) ≤ 6 ∧ (6 : ℕ) ≤ 30 ∧
    (∀ c ∈ ([⟨1,6,none⟩,⟨12,5,none⟩,⟨23,4,none⟩,⟨34,3,none⟩,⟨45,2,none⟩,⟨56,1,none⟩] :
        List Candidate), 1 ≤ c.number ∧ c.number ≤ 60) ∧
    (([⟨1,6,none⟩,⟨12,5,none⟩,⟨23,4,none⟩,⟨34,3,none⟩,⟨45,2,none⟩,⟨56,1,none⟩] :
        List Candidate).map Candidate.number).Nodup ∧
    ((selectBestNumbers [⟨1,6,none⟩,⟨12,5,none⟩,⟨23,4,none⟩,⟨34,3,none⟩,⟨45,2,none⟩,⟨56,1,none⟩]
        6 Strictness.high ⟨fun _ => 0, 0⟩).1.length = 6 ∧
      (selectBestNumbers [⟨1,6,none⟩,⟨12,5,none⟩,⟨23,4,none⟩,⟨34,3,none⟩,⟨45,2,none⟩,⟨56,1,none⟩]
        6 Strictness.high ⟨fun _ => 0, 0⟩).1.Nodup ∧
      (∀ x ∈ (selectBestNumbers [⟨1,6,none⟩,⟨12,5,none⟩,⟨23,4,none⟩,⟨34,3,none⟩,⟨45,2,none⟩,⟨56,1,none⟩]
        6 Strictness.high ⟨fun _ => 0, 0⟩).1, 1 ≤ x ∧ x ≤ 60) ∧
      (selectBestNumbers [⟨1,6,none⟩,⟨12,5,none⟩,⟨23,4,none⟩,⟨34,3,none⟩,⟨45,2,none⟩,⟨56,1,none⟩]
        6 Strictness.high ⟨fun _ => 0, 0⟩).1.Sorted (· < ·)) :=
  ⟨by decide, by decide, by decide, by decide,
    claim_C6_amended _ 6 Strictness.high ⟨fun _ => 0, 0⟩ (by decide) (by decide)
      (by decide) (by decide)⟩

/-- A full 60-number candidate pool, ranked by strictly decreasing score. -/
def pool60 : List Candidate :=
  (List.range' 1 60).map (fun n => ⟨n, ((61 - n : ℕ) : ℚ), none⟩)

set_option maxRecDepth 8000 in
/-- Counterexample to claim C6 as stated (every pool, every k ≤ 60): with an
empty candidate pool and k = 5 the fallback returns 6 numbers (its per-decade
targets ignore the requested count below 6); with the full 60-number pool and
k = 60 the greedy pass keeps 31 numbers, the fallback then draws from the 29
remaining numbers only, and the returned wager has 29 values. -/
theorem claim_C6_counterexample :
    (∀ c ∈ ([] : List Candidate), 1 ≤ c.number ∧ c.number ≤ 60) ∧
    (selectBestNumbers [] 5 Strictness.high ⟨fun _ => 0, 0⟩).1.length = 6 ∧
    (∀ c ∈ pool60, 1 ≤ c.number ∧ c.number ≤ 60) ∧
    (pool60.map Candidate.number).Nodup ∧
    (selectBestNumbers pool60 60 Strictness.medium ⟨fun _ => 0, 0⟩).1.length = 29 := by
  refine ⟨by decide, by decide, by decide, by decide, by decide⟩

/-- Claim C9: whenever the strict greedy pass selects fewer than `count`
numbers, the returned wager is disjoint from the partial greedy selection
(the fallback receives it as the exclusion list and replaces it). -/
theorem claim_C9 (cands : List Candidate) (k : ℕ) (strict : Strictness)
    (s : RState)
    (hlt : (greedyPhase k strict (sortCandidates cands) []).length < k) :
    ∀ x ∈ (selectBestNumbers cands k strict s).1,
      x ∉ greedyPhase k strict (sortCandidates cands) [] := by
  intro x hx
  have hsel : selectBestNumbers cands k strict s =
      (sortAscN (generateRandomWithDistribution k
          (greedyPhase k strict (sortCandidates cands) []) s).1,
        (generateRandomWithDistribution k
          (greedyPhase k strict (sortCandidates cands) []) s).2, true) := by
    simp only [selectBestNumbers]
    rw [if_pos hlt]
  rw [hsel] at hx
  obtain ⟨rnd, rsub, _⟩ := grwd_spec k (greedyPhase k strict (sortCandidates cands) []) s
  have hx' : x ∈ (generateRandomWithDistribution k
      (greedyPhase k strict (sortCandidates cands) []) s).1 :=
    ((sortAscN_wrap _ rnd).2.2.1 x).mp hx
  exact (mem_availableFor.mp (rsub x hx')).2

/-- Witness for `claim_C9`: three candidates for a 6-number wager; the greedy
pass keeps [1,2] and the returned wager avoids both. -/
theorem claim_C9_witness :
    (greedyPhase 6 Strictness.medium
        (sortCandidates [⟨1,3,none⟩,⟨2,2,none⟩,⟨3,1,none⟩]) []).length < 6 ∧
    (∀ x ∈ (selectBestNumbers [⟨1,3,none⟩,⟨2,2,none⟩,⟨3,1,none⟩] 6 Strictness.medium
        ⟨fun _ => 0, 0⟩).1,
      x ∉ greedyPhase 6 Strictness.medium
        (sortCandidates [⟨1,3,none⟩,⟨2,2,none⟩,⟨3,1,none⟩]) []) :=
  ⟨by decide,
    claim_C9 [⟨1,3,none⟩,⟨2,2,none⟩,⟨3,1,none⟩] 6 Strictness.medium
      ⟨fun _ => 0, 0⟩ (by decide)⟩

/-! ### Wager-generation paths of the closure loop (closure.js lines 210-347)

Which generation path each wager takes depends only on the wager's size
(`betInfo.numbers`), the `isFirstLargeBet` flag, and `financials.betLevel`
(lines 221-228); the following skeleton threads exactly those. -/

/-- The two generation paths of the loop body: the democratic flagship path
(`consolidateFinalNumbers`, line 225) and the score-based subsequent path
that excludes used numbers (lines 229-325). -/
inductive WagerPath
  | flagship
  | subsequent
  deriving Repr, DecidableEq

/-- Path decision for one wager (lines 221-228): the flagship path requires
size ≥ 7, the `isFirstLargeBet` flag, and size equal to `financials.betLevel`;
only the flagship path clears the flag (line 227). -/
def betPath (betLevel size : ℕ) (first : Bool) : WagerPath × Bool :=
  if 7 ≤ size then
    if first = true ∧ size = betLevel then (WagerPath.flagship, false)
    else (WagerPath.subsequent, first)
  else (WagerPath.subsequent, first)

/-- The inner `for (let i = 0; i < betInfo.count; i++)` loop (line 218):
one path decision per wager of the group, threading the flag. -/
def groupPaths (betLevel size : ℕ) : ℕ → Bool → List WagerPath × Bool
  | 0, first => ([], first)
  | n + 1, first =>
    let r := betPath betLevel size first
    let rest := groupPaths betLevel size n r.2
    (r.1 :: rest.1, rest.2)

/-- The outer `for (const betInfo of financials.betDistribution)` loop
(line 215). -/
def wagerPathsAux (betLevel : ℕ) : List BetEntry → Bool → List WagerPath
  | [], _ => []
  | e :: rest, first =>
    let r := groupPaths betLevel e.numbers e.count first
    r.1 ++ wagerPathsAux betLevel rest r.2

/-- The sequence of generation paths of one closure run over the given
financials (`isFirstLargeBet` starts `true`, line 213). -/
def wagerPaths (info : BetLevelInfo) : List WagerPath :=
  wagerPathsAux info.betLevel info.betDistribution true

lemma betPath_subseq (betLevel size : ℕ) (first : Bool)
    (h : 7 ≤ size → first = true → size ≠ betLevel) :
    betPath betLevel size first = (WagerPath.subsequent, first) := by
  unfold betPath
  split_ifs with h1 h2
  · exact absurd h2.2 (h h1 h2.1)
  · rfl
  · rfl

lemma groupPaths_subseq (betLevel size : ℕ) (first : Bool)
    (h : 7 ≤ size → first = true → size ≠ betLevel) :
    ∀ n, groupPaths betLevel size n first =
      (List.replicate n WagerPath.subsequent, first) := by
  intro n
  induction n with
  | zero => rfl
  | succ n ih =>
    simp only [groupPaths, betPath_subseq betLevel size first h, ih,
      List.replicate_succ]

lemma groupPaths_flagship (betLevel size n : ℕ) (h7 : 7 ≤ size)
    (heq : size = betLevel) :
    groupPaths betLevel size (n + 1) true =
      (WagerPath.flagship :: List.replicate n WagerPath.subsequent, false) := by
  have hbp : betPath betLevel size true = (WagerPath.flagship, false) := by
    unfold betPath
    rw [if_pos h7, if_pos ⟨rfl, heq⟩]
  simp only [groupPaths, hbp,
    groupPaths_subseq betLevel size false (fun _ hft => by cases hft) n]

lemma wagerPathsAux_subseq (betLevel : ℕ) :
    ∀ (dist : List BetEntry) (first : Bool),
      (∀ x ∈ dist, 7 ≤ x.numbers → first = true → x.numbers ≠ betLevel) →
      wagerPathsAux betLevel dist first =
        List.replicate ((dist.map BetEntry.count).sum) WagerPath.subsequent := by
  intro dist
  induction dist with
  | nil => intro first _; rfl
  | cons e rest ih =>
    intro first hcond
    simp only [wagerPathsAux,
      groupPaths_subseq betLevel e.numbers first
        (hcond e (List.mem_cons_self e rest)) e.count,
      ih first (fun x hx => hcond x (List.mem_cons_of_mem e hx)),
      List.map_cons, List.sum_cons, List.replicate_add]

/-- Claim C2 (amended): iterating the distribution (sorted strictly
descending by size, with the financials' `betLevel` being the head group's
size, as `calculateBetLevel` produces them), the flagship path is used for
exactly the first wager of the largest-size group **when that size is ≥ 7**,
and every other wager uses the subsequent path; when the largest size is
below 7 (a 6-number-only plan), every wager — including the very first —
uses the subsequent path. -/
theorem claim_C2_amended (info : BetLevelInfo) (e : BetEntry)
    (rest : List BetEntry)
    (hdist : info.betDistribution = e :: rest)
    (hlevel : info.betLevel = e.numbers)
    (hdesc : List.Pairwise (fun a b => b.numbers < a.numbers) info.betDistribution)
    (hcnt : 1 ≤ e.count) :
    (7 ≤ e.numbers →
      wagerPaths info = WagerPath.flagship ::
        List.replicate ((info.betDistribution.map BetEntry.count).sum - 1)
          WagerPath.subsequent) ∧
    (e.numbers < 7 →
      wagerPaths info =
        List.replicate ((info.betDistribution.map BetEntry.count).sum)
          WagerPath.subsequent) := by
  rw [hdist] at hdesc
  unfold wagerPaths
  rw [hdist, hlevel]
  constructor
  · intro h7
    obtain ⟨m, hm⟩ : ∃ m, e.count = m + 1 := ⟨e.count - 1, by omega⟩
    simp only [wagerPathsAux]
    rw [hm, groupPaths_flagship e.numbers e.numbers m h7 rfl]
    rw [wagerPathsAux_subseq e.numbers rest false (fun x _ _ hft => by cases hft)]
    simp only [List.cons_append, List.map_cons, List.sum_cons]
    rw [← List.replicate_add]
    have hsum : m + (rest.map BetEntry.count).sum =
        e.count + (rest.map BetEntry.count).sum - 1 := by omega
    rw [hsum]
  · intro hlt
    apply wagerPathsAux_subseq
    intro x hx h7x _
    exfalso
    have hxle : x.numbers ≤ e.numbers := by
      rcases List.mem_cons.mp hx with rfl | hx'
      · exact le_refl _
      · exact le_of_lt ((List.pairwise_cons.mp hdesc).1 x hx')
    omega

/-- Counterexample to claim C2 as stated: with funds R$6 over the standard
table the plan's only (hence largest) group is one 6-number wager, and its
first wager is generated via the subsequent path, not the flagship path
(the code's `betInfo.numbers >= 7` guard skips the flagship branch). -/
theorem claim_C2_counterexample :
    (calculateBetLevel 6 stdLevels).betDistribution = [⟨6, 6, 1⟩] ∧
    (calculateBetLevel 6 stdLevels).betLevel = 6 ∧
    wagerPaths (calculateBetLevel 6 stdLevels) = [WagerPath.subsequent] :=
  ⟨by decide, by decide, by decide⟩

/-- Witness for `claim_C2_amended` at funds R$48 over the standard table
(plan 1×7 + 1×6): flagship for the 7-number wager, subsequent for the rest. -/
theorem claim_C2_witness :
    (calculateBetLevel 48 stdLevels).betDistribution = [⟨7, 42, 1⟩, ⟨6, 6, 1⟩] ∧
    (calculateBetLevel 48 stdLevels).betLevel = 7 ∧
    wagerPaths (calculateBetLevel 48 stdLevels) =
      WagerPath.flagship :: List.replicate
        (((calculateBetLevel 48 stdLevels).betDistribution.map BetEntry.count).sum - 1)
        WagerPath.subsequent :=
  ⟨by decide, by decide,
    (claim_C2_amended (calculateBetLevel 48 stdLevels) ⟨7, 42, 1⟩ [⟨6, 6, 1⟩]
      (by decide) (by decide) (by decide) (by decide)).1 (by decide)⟩

/-! ### Persistence of the closure (closure.js lines 149-176 and 392-415)

The write sequence of `closeBolao` issues three kinds of database writes:
the auto-generated `number_selections` insert (lines 165-175, whose error is
only logged — the run continues), the `bolao` status/hash/snapshot update
(lines 392-402, thrown on error), and the `final_bets` insert (lines
411-415, thrown on error).  The writes are three independent statements with
no surrounding transaction and no compensation in the `catch` of line 426,
so a write that succeeded stays applied even when a later write throws. -/

/-- Pool lifecycle status (`CONFIG.BOLAO_STATUS`). -/
inductive BolaoStatus
  | opened
  | closed
  deriving Repr, DecidableEq

/-- The three database write steps of `closeBolao`. -/
inductive WriteStep
  | insertSelections
  | updateStatus
  | insertBets
  deriving Repr, DecidableEq

/-- The persisted rows touched by the closure: the pool row (status, hash,
snapshot — the snapshot abstracted to a value), the inserted wager rows, and
whether the auto-generated selections were persisted. -/
structure DbState where
  status : BolaoStatus
  closureHash : Option ℕ
  closureData : Option ℕ
  finalBets : List (List ℕ)
  autoSelections : Bool
  deriving Repr, DecidableEq

/-- Outcome of one closure run against the database: whether `closeBolao`
returned normally, and the database contents it leaves behind. -/
structure PersistResult where
  ok : Bool
  db : DbState
  deriving Repr, DecidableEq

/-- The write sequence of `closeBolao` with failure injection (`fails step`
says the database rejects that write): the selections insert failure is
logged and the run continues (lines 169-171); the status update failure
throws before anything else is written (line 402); the bets insert failure
throws after the status update is already committed (line 415) — there is no
transaction, so the earlier writes stay. -/
def closeBolaoPersist (fails : WriteStep → Bool) (hash data : ℕ)
    (bets : List (List ℕ)) (s : DbState) : PersistResult :=
  let s1 := if fails WriteStep.insertSelections then s
    else { s with autoSelections := true }
  if fails WriteStep.updateStatus then ⟨false, s1⟩
  else
    let s2 := { s1 with
      status := BolaoStatus.closed
      closureHash := some hash
      closureData := some data }
    if fails WriteStep.insertBets then ⟨false, s2⟩
    else ⟨true, { s2 with finalBets := s2.finalBets ++ bets }⟩

/-- Claim C3 (amended): the closure's persistence is **not** atomic; its
exact failure behaviour is: if the status update fails, the error propagates
and the pool row is untouched (status, hash, snapshot and wager rows keep
their prior values); if the status update succeeds and the bets insert
fails, the error propagates **but** the pool is already Closed with the
fingerprint and snapshot committed and no wager rows; if both succeed, the
run reports success with the wager rows appended; and a failure of the
auto-generated selections insert never aborts the run (it is logged and
tolerated). -/
theorem claim_C3_amended (fails : WriteStep → Bool) (hash data : ℕ)
    (bets : List (List ℕ)) (s : DbState) :
    (fails WriteStep.updateStatus = true →
      (closeBolaoPersist fails hash data bets s).ok = false ∧
      (closeBolaoPersist fails hash data bets s).db.status = s.status ∧
      (closeBolaoPersist fails hash data bets s).db.closureHash = s.closureHash ∧
      (closeBolaoPersist fails hash data bets s).db.closureData = s.closureData ∧
      (closeBolaoPersist fails hash data bets s).db.finalBets = s.finalBets) ∧
    (fails WriteStep.updateStatus = false → fails WriteStep.insertBets = true →
      (closeBolaoPersist fails hash data bets s).ok = false ∧
      (closeBolaoPersist fails hash data bets s).db.status = BolaoStatus.closed ∧
      (closeBolaoPersist fails hash data bets s).db.closureHash = some hash ∧
      (closeBolaoPersist fails hash data bets s).db.closureData = some data ∧
      (closeBolaoPersist fails hash data bets s).db.finalBets = s.finalBets) ∧
    (fails WriteStep.updateStatus = false → fails WriteStep.insertBets = false →
      (closeBolaoPersist fails hash data bets s).ok = true ∧
      (closeBolaoPersist fails hash data bets s).db.finalBets = s.finalBets ++ bets) ∧
    (fails WriteStep.insertSelections = true →
      (closeBolaoPersist fails hash data bets s).ok =
        (!fails WriteStep.updateStatus && !fails WriteStep.insertBets)) := by
  cases h0 : fails WriteStep.insertSelections <;>
    cases h1 : fails WriteStep.updateStatus <;>
      cases h2 : fails WriteStep.insertBets <;>
        simp [closeBolaoPersist, h0, h1, h2]

/-- Counterexample to claim C3 as stated: injecting a failure at the
`final_bets` insert on a fresh Open pool, `closeBolao` throws, yet the pool
row is left Closed with the fingerprint and snapshot committed and no wager
rows — a partial closure state, and the status does not remain Open. -/
theorem claim_C3_counterexample :
    (closeBolaoPersist (fun st => decide (st = WriteStep.insertBets)) 7 1
        [[1, 12, 23, 34, 45, 56]]
        ⟨BolaoStatus.opened, none, none, [], false⟩).ok = false ∧
    (closeBolaoPersist (fun st => decide (st = WriteStep.insertBets)) 7 1
        [[1, 12, 23, 34, 45, 56]]
        ⟨BolaoStatus.opened, none, none, [], false⟩).db.status = BolaoStatus.closed ∧
    (closeBolaoPersist (fun st => decide (st = WriteStep.insertBets)) 7 1
        [[1, 12, 23, 34, 45, 56]]
        ⟨BolaoStatus.opened, none, none, [], false⟩).db.closureHash = some 7 ∧
    (closeBolaoPersist (fun st => decide (st = WriteStep.insertBets)) 7 1
        [[1, 12, 23, 34, 45, 56]]
        ⟨BolaoStatus.opened, none, none, [], false⟩).db.finalBets = [] :=
  ⟨by decide, by decide, by decide, by decide⟩

/-- Witness for `claim_C3_amended`: the bets-insert-failure branch at a
concrete run (same injection as the counterexample). -/
theorem claim_C3_witness :
    ((fun st => decide (st = WriteStep.insertBets)) WriteStep.updateStatus = false) ∧
    ((fun st => decide (st = WriteStep.insertBets)) WriteStep.insertBets = true) ∧
    ((closeBolaoPersist (fun st => decide (st = WriteStep.insertBets)) 9 2
        [[2, 13, 24, 35, 46, 57]]
        ⟨BolaoStatus.opened, none, none, [], false⟩).ok = false ∧
      (closeBolaoPersist (fun st => decide (st = WriteStep.insertBets)) 9 2
        [[2, 13, 24, 35, 46, 57]]
        ⟨BolaoStatus.opened, none, none, [], false⟩).db.status = BolaoStatus.closed ∧
      (closeBolaoPersist (fun st => decide (st = WriteStep.insertBets)) 9 2
        [[2, 13, 24, 35, 46, 57]]
        ⟨BolaoStatus.opened, none, none, [], false⟩).db.closureHash = some 9 ∧
      (closeBolaoPersist (fun st => decide (st = WriteStep.insertBets)) 9 2
        [[2, 13, 24, 35, 46, 57]]
        ⟨BolaoStatus.opened, none, none, [], false⟩).db.closureData = some 2 ∧
      (closeBolaoPersist (fun st => decide (st = WriteStep.insertBets)) 9 2
        [[2, 13, 24, 35, 46, 57]]
        ⟨BolaoStatus.opened, none, none, [], false⟩).db.finalBets = []) :=
  ⟨by decide, by decide,
    (claim_C3_amended (fun st => decide (st = WriteStep.insertBets)) 9 2
      [[2, 13, 24, 35, 46, 57]]
      ⟨BolaoStatus.opened, none, none, [], false⟩).2.1 (by decide) (by decide)⟩

/-! ### The closure computation (closure.js lines 102-430)

The in-memory closure pipeline over explicit inputs: funds, level table,
confirmed participants with their selections, the per-number score table
(`number_scores`, one row per number), and the injected randomness stream.
The model covers participants who made selections (the auto-generation
branch of lines 149-176 fills selections for the others before this point);
the `number_scores`-query branches always find enough rows, so the
weighted-random branches of lines 268-276 and 316-324 are not taken.  The
SHA-256 fingerprint (`generateClosureHash`, from `utils/hash.js`, which is
not part of the snapshot) is — modelled from the spec — a collision-free
digest of the serialized closure data, so two fingerprints are equal exactly
when the serialized data agree; the model therefore compares the closure
data itself. -/

/-- A confirmed participant with their (possibly auto-generated) selections. -/
structure Participant where
  userId : ℕ
  name : ℕ
  selections : List ℕ
  deriving Repr, DecidableEq

/-- The `numberToUsers` map of lines 198-208: for each number, the names of
the participants who selected it. -/
def numberToUsers (ps : List Participant) : List (ℕ × List ℕ) :=
  (List.range' 1 60).map (fun n =>
    (n, (ps.filter (fun p => p.selections.contains n)).map Participant.name))

/-- The ranked list of lines 51-66 of `consolidateFinalNumbers`: all 60
numbers with their vote counts and scores, sorted by votes then score. -/
def rankedCandidates (votes : List ℕ) (scores : ℕ → ℚ) : List Candidate :=
  sortCandidates ((List.range' 1 60).map (fun n => ⟨n, scores n, some (votes.count n)⟩))

/-- `consolidateFinalNumbers(bolaoId, targetCount)` (lines 15-94): the top
`4 × targetCount` ranked numbers fed to the intelligent selector. -/
def consolidateFinalNumbers (votes : List ℕ) (scores : ℕ → ℚ)
    (targetCount : ℕ) (s : RState) : List ℕ × RState × Bool :=
  selectBestNumbers ((rankedCandidates votes scores).take (min (targetCount * 4) 60))
    targetCount Strictness.high s

/-- The `number_scores` query of lines 247-253 / 295-301: the available
numbers ordered by score descending, truncated to the pool size, as
candidates without votes. -/
def topByScore (scores : ℕ → ℚ) (avail : List ℕ) (poolSize : ℕ) : List Candidate :=
  ((List.insertionSort (fun a b => scores b ≤ scores a) avail).take poolSize).map
    (fun n => ⟨n, scores n, none⟩)

/-- Lines 230-242 / 280-290: the unused numbers, with the pool (and the used
set) reset when fewer than `size` remain.  Returns the pool and the possibly
cleared used set. -/
def poolReset (used : List ℕ) (size : ℕ) : List ℕ × List ℕ :=
  let avail := availableFor used
  if avail.length < size then (List.range' 1 60, []) else (avail, used)

/-- One subsequent (score-based) wager (lines 229-276 for large sizes,
278-325 for size 6; the pool size is `min(size*4, available)` in both — the
small branch's literal 24 is 6×4).  Returns the wager, the used set after
the possible reset, the advanced stream, and the fallback flag. -/
def subsequentBet (scores : ℕ → ℚ) (used : List ℕ) (size : ℕ) (s : RState) :
    List ℕ × List ℕ × RState × Bool :=
  let pr := poolReset used size
  let r := selectBestNumbers (topByScore scores pr.1 (min (size * 4) pr.1.length))
    size Strictness.high s
  (r.1, pr.2, r.2.1, r.2.2)

/-- The mutable state of the bet-generation loop: generated wagers, used
numbers, the `isFirstLargeBet` flag, the randomness stream, and whether any
randomized fallback ran. -/
structure ClosureGen where
  bets : List (List ℕ)
  used : List ℕ
  first : Bool
  rs : RState
  fb : Bool

/-- One iteration of the wager loop body (lines 218-346): flagship
consolidation for the first large bet at the plan's `betLevel`, the
score-based subsequent path otherwise; the wager's numbers are marked used
afterwards (line 345). -/
def genOne (votes : List ℕ) (scores : ℕ → ℚ) (betLevel size : ℕ)
    (st : ClosureGen) : ClosureGen :=
  if 7 ≤ size ∧ st.first = true ∧ size = betLevel then
    let r := consolidateFinalNumbers votes scores size st.rs
    ⟨st.bets ++ [r.1], st.used ++ r.1, false, r.2.1, st.fb || r.2.2⟩
  else
    let r := subsequentBet scores st.used size st.rs
    ⟨st.bets ++ [r.1], r.2.1 ++ r.1, st.first, r.2.2.1, st.fb || r.2.2.2⟩

/-- The inner count loop (line 218). -/
def genGroup (votes : List ℕ) (scores : ℕ → ℚ) (betLevel size : ℕ) :
    ℕ → ClosureGen → ClosureGen
  | 0, st => st
  | n + 1, st => genGroup votes scores betLevel size n (genOne votes scores betLevel size st)

/-- The outer distribution loop (line 215). -/
def genBets (votes : List ℕ) (scores : ℕ → ℚ) (betLevel : ℕ) :
    List BetEntry → ClosureGen → ClosureGen
  | [], st => st
  | e :: rest, st =>
    genBets votes scores betLevel rest (genGroup votes scores betLevel e.numbers e.count st)

/-- The serialized closure snapshot of lines 365-384 (the fields that depend
on the closure inputs; the clock and identifier fields of the source are
fixed ambient values). -/
structure ClosureData where
  totalFunds : ℕ
  participants : List Participant
  numberToUsersMap : List (ℕ × List ℕ)
  betLevel : ℕ
  betDistribution : List BetEntry
  totalBets : ℕ
  remainingFunds : ℕ
  finalBets : List (List ℕ)
  deriving Repr, DecidableEq

/-- One closure run: financials from `calculateBetLevel`, the wager loop,
and the snapshot whose collision-free digest is the fingerprint.  The second
component reports whether any randomized fallback path ran. -/
def closeBolaoRun (f : ℕ) (levels : List BetLevel) (ps : List Participant)
    (scores : ℕ → ℚ) (s : RState) : ClosureData × Bool :=
  let fin := calculateBetLevel f levels
  let votes := (ps.map Participant.selections).join
  let g := genBets votes scores fin.betLevel fin.betDistribution ⟨[], [], true, s, false⟩
  (⟨f, ps, numberToUsers ps, fin.betLevel, fin.betDistribution, fin.totalBets,
    fin.remainingFunds, g.bets⟩, g.fb)

/-! ### Stream-independence of fallback-free runs -/

lemma selectBestNumbers_det (c : List Candidate) (k : ℕ) (str : Strictness)
    (s₁ s₂ : RState) (h : (selectBestNumbers c k str s₁).2.2 = false) :
    (selectBestNumbers c k str s₂).1 = (selectBestNumbers c k str s₁).1 ∧
    (selectBestNumbers c k str s₂).2.2 = false := by
  by_cases hlt : (greedyPhase k str (sortCandidates c) []).length < k
  · exfalso
    have htrue : (selectBestNumbers c k str s₁).2.2 = true := by
      simp only [selectBestNumbers, if_pos hlt]
    rw [h] at htrue
    exact absurd htrue (by decide)
  · have e : ∀ s : RState, selectBestNumbers c k str s =
        (sortAscN (greedyPhase k str (sortCandidates c) []), s, false) := by
      intro s
      simp only [selectBestNumbers, if_neg hlt]
    rw [e s₁, e s₂]
    exact ⟨rfl, rfl⟩

lemma consolidateFinalNumbers_det (votes : List ℕ) (scores : ℕ → ℚ) (k : ℕ)
    (s₁ s₂ : RState)
    (h : (consolidateFinalNumbers votes scores k s₁).2.2 = false) :
    (consolidateFinalNumbers votes scores k s₂).1 =
      (consolidateFinalNumbers votes scores k s₁).1 ∧
    (consolidateFinalNumbers votes scores k s₂).2.2 = false := by
  exact selectBestNumbers_det ((rankedCandidates votes scores).take (min (k * 4) 60))
    k Strictness.high s₁ s₂ h

lemma subsequentBet_det (scores : ℕ → ℚ) (used : List ℕ) (size : ℕ)
    (s₁ s₂ : RState) (h : (subsequentBet scores used size s₁).2.2.2 = false) :
    (subsequentBet scores used size s₂).1 = (subsequentBet scores used size s₁).1 ∧
    (subsequentBet scores used size s₂).2.1 = (subsequentBet scores used size s₁).2.1 ∧
    (subsequentBet scores used size s₂).2.2.2 = false := by
  obtain ⟨h1, h2⟩ := selectBestNumbers_det
    (topByScore scores (poolReset used size).1
      (min (size * 4) (poolReset used size).1.length)) size Strictness.high s₁ s₂ h
  exact ⟨h1, rfl, h2⟩

lemma genOne_fb_mono (votes : List ℕ) (scores : ℕ → ℚ) (betLevel size : ℕ)
    (st : ClosureGen) (h : (genOne votes scores betLevel size st).fb = false) :
    st.fb = false := by
  simp only [genOne] at h
  split_ifs at h <;> (simp at h; exact h.1)

lemma genGroup_fb_mono (votes : List ℕ) (scores : ℕ → ℚ) (betLevel size : ℕ) :
    ∀ (n : ℕ) (st : ClosureGen),
      (genGroup votes scores betLevel size n st).fb = false → st.fb = false := by
  intro n
  induction n with
  | zero => intro st h; exact h
  | succ n ih =>
    intro st h
    exact genOne_fb_mono votes scores betLevel size st
      (ih (genOne votes scores betLevel size st) h)

lemma genBets_fb_mono (votes : List ℕ) (scores : ℕ → ℚ) (betLevel : ℕ) :
    ∀ (dist : List BetEntry) (st : ClosureGen),
      (genBets votes scores betLevel dist st).fb = false → st.fb = false := by
  intro dist
  induction dist with
  | nil => intro st h; exact h
  | cons e rest ih =>
    intro st h
    exact genGroup_fb_mono votes scores betLevel e.numbers e.count st
      (ih (genGroup votes scores betLevel e.numbers e.count st) h)

lemma genOne_det (votes : List ℕ) (scores : ℕ → ℚ) (betLevel size : ℕ)
    (st₁ st₂ : ClosureGen)
    (hb : st₂.bets = st₁.bets) (hu : st₂.used = st₁.used)
    (hf : st₂.first = st₁.first) (hfb2 : st₂.fb = false) (hfb1 : st₁.fb = false)
    (hres : (genOne votes scores betLevel size st₁).fb = false) :
    (genOne votes scores betLevel size st₂).bets =
      (genOne votes scores betLevel size st₁).bets ∧
    (genOne votes scores betLevel size st₂).used =
      (genOne votes scores betLevel size st₁).used ∧
    (genOne votes scores betLevel size st₂).first =
      (genOne votes scores betLevel size st₁).first ∧
    (genOne votes scores betLevel size st₂).fb = false := by
  by_cases hc : 7 ≤ size ∧ st₁.first = true ∧ size = betLevel
  · have hc₂ : 7 ≤ size ∧ st₂.first = true ∧ size = betLevel :=
      ⟨hc.1, by rw [hf]; exact hc.2.1, hc.2.2⟩
    simp only [genOne, if_pos hc, if_pos hc₂, hfb1, hfb2, Bool.false_or] at hres ⊢
    obtain ⟨h1, h2⟩ := consolidateFinalNumbers_det votes scores size st₁.rs st₂.rs hres
    simp [h1, h2, hb, hu]
  · have hc₂ : ¬(7 ≤ size ∧ st₂.first = true ∧ size = betLevel) := by
      rw [hf]; exact hc
    simp only [genOne, if_neg hc, if_neg hc₂, hfb1, hfb2, Bool.false_or, hu] at hres ⊢
    obtain ⟨h1, h2, h3⟩ := subsequentBet_det scores st₁.used size st₁.rs st₂.rs hres
    simp [h1, h2, h3, hb, hf]

lemma genGroup_det (votes : List ℕ) (scores : ℕ → ℚ) (betLevel size : ℕ) :
    ∀ (n : ℕ) (st₁ st₂ : ClosureGen),
      st₂.bets = st₁.bets → st₂.used = st₁.used → st₂.first = st₁.first →
      st₂.fb = false → st₁.fb = false →
      (genGroup votes scores betLevel size n st₁).fb = false →
      (genGroup votes scores betLevel size n st₂).bets =
        (genGroup votes scores betLevel size n st₁).bets ∧
      (genGroup votes scores betLevel size n st₂).used =
        (genGroup votes scores betLevel size n st₁).used ∧
      (genGroup votes scores betLevel size n st₂).first =
        (genGroup votes scores betLevel size n st₁).first ∧
      (genGroup votes scores betLevel size n st₂).fb = false := by
  intro n
  induction n with
  | zero => intro st₁ st₂ hb hu hf hfb2 hfb1 _; exact ⟨hb, hu, hf, hfb2⟩
  | succ n ih =>
    intro st₁ st₂ hb hu hf hfb2 hfb1 hres
    simp only [genGroup] at hres ⊢
    have hres1 : (genOne votes scores betLevel size st₁).fb = false :=
      genGroup_fb_mono votes scores betLevel size n _ hres
    obtain ⟨g1, g2, g3, g4⟩ :=
      genOne_det votes scores betLevel size st₁ st₂ hb hu hf hfb2 hfb1 hres1
    exact ih (genOne votes scores betLevel size st₁)
      (genOne votes scores betLevel size st₂) g1 g2 g3 g4 hres1 hres

lemma genBets_det (votes : List ℕ) (scores : ℕ → ℚ) (betLevel : ℕ) :
    ∀ (dist : List BetEntry) (st₁ st₂ : ClosureGen),
      st₂.bets = st₁.bets → st₂.used = st₁.used → st₂.first = st₁.first →
      st₂.fb = false → st₁.fb = false →
      (genBets votes scores betLevel dist st₁).fb = false →
      (genBets votes scores betLevel dist st₂).bets =
        (genBets votes scores betLevel dist st₁).bets ∧
      (genBets votes scores betLevel dist st₂).fb = false := by
  intro dist
  induction dist with
  | nil => intro st₁ st₂ hb hu hf hfb2 hfb1 _; exact ⟨hb, hfb2⟩
  | cons e rest ih =>
    intro st₁ st₂ hb hu hf hfb2 hfb1 hres
    simp only [genBets] at hres ⊢
    have hres1 : (genGroup votes scores betLevel e.numbers e.count st₁).fb = false :=
      genBets_fb_mono votes scores betLevel rest _ hres
    obtain ⟨g1, g2, g3, g4⟩ := genGroup_det votes scores betLevel e.numbers e.count
      st₁ st₂ hb hu hf hfb2 hfb1 hres1
    exact ih (genGroup votes scores betLevel e.numbers e.count st₁)
      (genGroup votes scores betLevel e.numbers e.count st₂) g1 g2 g3 g4 hres1 hres

/-- Claim C4 (amended): for fixed funds, levels, participants
(votes) and scores, a closure run that uses no randomized fallback path is
independent of the randomness stream: every stream yields the identical
closure data — allocation plan, wager sequence, and hence fingerprint — and
is itself fallback-free.  Changing the participants (any vote) changes the
closure data and hence the fingerprint, because the selections are
serialized into it.  A single score change, by contrast, need **not** change
the fingerprint (see the counterexample): the scores are not serialized and
influence the data only through the selected wagers. -/
theorem claim_C4_amended (f : ℕ) (levels : List BetLevel) (ps : List Participant)
    (scores : ℕ → ℚ) (s₁ : RState)
    (hfb : (closeBolaoRun f levels ps scores s₁).2 = false) :
    (∀ s₂ : RState,
      (closeBolaoRun f levels ps scores s₂).1 = (closeBolaoRun f levels ps scores s₁).1 ∧
      (closeBolaoRun f levels ps scores s₂).2 = false) ∧
    (∀ ps' : List Participant, ps ≠ ps' →
      (closeBolaoRun f levels ps scores s₁).1 ≠ (closeBolaoRun f levels ps' scores s₁).1) := by
  constructor
  · intro s₂
    have hfb' : (genBets ((ps.map Participant.selections).join) scores
        (calculateBetLevel f levels).betLevel
        (calculateBetLevel f levels).betDistribution
        ⟨[], [], true, s₁, false⟩).fb = false := hfb
    obtain ⟨g1, g2⟩ := genBets_det ((ps.map Participant.selections).join) scores
      (calculateBetLevel f levels).betLevel
      (calculateBetLevel f levels).betDistribution
      ⟨[], [], true, s₁, false⟩ ⟨[], [], true, s₂, false⟩
      rfl rfl rfl rfl rfl hfb'
    constructor
    · simp only [closeBolaoRun]
      rw [g1]
    · exact g2
  · intro ps' hne heq
    exact hne (congrArg ClosureData.participants heq)

/-- The scores used by the C4 instances: a well-spread six-number set gets
the top scores and the rest decay with the number. -/
def scoresBase : ℕ → ℚ := fun n =>
  if n ∈ [3, 9, 22, 28, 41, 47] then (1000 : ℚ) - n else (60 : ℚ) - n

/-- `scoresBase` with the single score of number 60 changed. -/
def scoresTweaked : ℕ → ℚ := fun n => if n = 60 then -5 else scoresBase n

set_option maxRecDepth 8000 in
/-- Counterexample to claim C4 as stated: over funds R$6 (one 6-number
wager) with one participant, changing the single input score of number 60 —
which lies outside the top-24 candidate pool under both score tables —
leaves the generated wager, the closure data, and hence the fingerprint
unchanged, even though both runs are fallback-free; so changing a single
input score does not always change the fingerprint. -/
theorem claim_C4_counterexample :
    scoresBase 60 ≠ scoresTweaked 60 ∧
    (closeBolaoRun 6 stdLevels [⟨1, 1, [1, 12, 23, 34, 45, 56]⟩] scoresBase
      ⟨fun _ => 0, 0⟩).2 = false ∧
    (closeBolaoRun 6 stdLevels [⟨1, 1, [1, 12, 23, 34, 45, 56]⟩] scoresTweaked
      ⟨fun _ => 0, 0⟩).2 = false ∧
    (closeBolaoRun 6 stdLevels [⟨1, 1, [1, 12, 23, 34, 45, 56]⟩] scoresBase
      ⟨fun _ => 0, 0⟩).1 =
    (closeBolaoRun 6 stdLevels [⟨1, 1, [1, 12, 23, 34, 45, 56]⟩] scoresTweaked
      ⟨fun _ => 0, 0⟩).1 :=
  ⟨by decide, by decide, by decide, by decide⟩

set_option maxRecDepth 8000 in
/-- Witness for `claim_C4_amended`: a fallback-free run at funds R$6 is
reproduced identically under a different stream, and dropping the
participant changes the closure data. -/
theorem claim_C4_witness :
    (closeBolaoRun 6 stdLevels [⟨1, 1, [1, 12, 23, 34, 45, 56]⟩] scoresBase
      ⟨fun _ => 0, 0⟩).2 = false ∧
    ((closeBolaoRun 6 stdLevels [⟨1, 1, [1, 12, 23, 34, 45, 56]⟩] scoresBase
        ⟨fun t => t + 1, 5⟩).1 =
      (closeBolaoRun 6 stdLevels [⟨1, 1, [1, 12, 23, 34, 45, 56]⟩] scoresBase
        ⟨fun _ => 0, 0⟩).1 ∧
      (closeBolaoRun 6 stdLevels [⟨1, 1, [1, 12, 23, 34, 45, 56]⟩] scoresBase
        ⟨fun t => t + 1, 5⟩).2 = false) ∧
    (closeBolaoRun 6 stdLevels [⟨1, 1, [1, 12, 23, 34, 45, 56]⟩] scoresBase
        ⟨fun _ => 0, 0⟩).1 ≠
      (closeBolaoRun 6 stdLevels [] scoresBase ⟨fun _ => 0, 0⟩).1 :=
  ⟨by decide,
    (claim_C4_amended 6 stdLevels [⟨1, 1, [1, 12, 23, 34, 45, 56]⟩] scoresBase
      ⟨fun _ => 0, 0⟩ (by decide)).1 ⟨fun t => t + 1, 5⟩,
    (claim_C4_amended 6 stdLevels [⟨1, 1, [1, 12, 23, 34, 45, 56]⟩] scoresBase
      ⟨fun _ => 0, 0⟩ (by decide)).2 [] (by decide)⟩

end MegaSena
